import Mathlib

/-!
# Set-based multivariate association test (`mbat.cpp`)

A shallow embedding of the collinearity reducer `gcta::sbat_VIF_iter_rm_colin`,
of the joint test statistic `gcta::sbat_multi_calcu_V`, of the per-set driver
`gcta::sbat_multi` and of the per-gene driver `gcta::sbat_multi_gene`, over an
arbitrary linearly ordered field `K` (exact arithmetic in place of
`float`/`double`).

Conventions of the embedding:

* an Eigen vector or a `std::vector` is a `List`; an Eigen matrix is the list of
  its rows; `vecAt` and `matAt` read an entry;
* the Eigen library (`SelfAdjointEigenSolver`, `inverse`), `sqrt` and
  `StatFunc::pchisq` are not part of the source file: they are parameters of the
  functions that call them;
* the only division of the source that is not guarded against a zero divisor is
  `1.0 / R_i(j,j)`; the embedding follows IEEE arithmetic there
  (`1.0 / 0.0 = +inf`, so `1.0 - 1.0 / 0.0 = -inf`) and writes `none` for `-inf`;
* a loop over an empty range runs no iteration, so on the 0-by-0 matrix
  `sbat_VIF_iter_rm_colin` visits no index and answers `-1`; what Eigen does with
  `R.col(0)` and with the eigen-solver on an empty matrix is not modelled;
* the `do ... while` loop of `sbat_multi_calcu_V` takes a bound `fuel` on the
  number of executions of its body and answers `none` when the bound is reached
  with the loop still running.
-/

set_option linter.unusedSectionVars false

namespace Gcta

variable {K : Type} [LinearOrderedField K]

/-! ## Vectors and matrices -/

/-- Entry `i` of a vector, `v(i)` / `v[i]`. -/
def vecAt (v : List K) (i : Nat) : K := v.getD i 0

/-- Entry `(i, j)` of a matrix stored as the list of its rows, `M(i,j)`. -/
def matAt (M : List (List K)) (i j : Nat) : K := (M.getD i []).getD j 0

/-- The vector of length `n` whose entry `i` is `f i`. -/
def vecBuild {α : Type} (n : Nat) (f : Nat → α) : List α := (List.range n).map f

/-- The `r`-by-`c` matrix whose entry `(i, j)` is `f i j`. -/
def matBuild (r c : Nat) (f : Nat → Nat → K) : List (List K) :=
  (List.range r).map fun i => (List.range c).map fun j => f i j

/-! ## `sbat_VIF_iter_rm_colin` -/

/-- Result of `SelfAdjointEigenSolver<MatrixXf> pca(R)`: `pca.eigenvalues()` and
`pca.eigenvectors()` (eigenvector `k` is column `k`). -/
structure SelfAdjointEigenSolver (K : Type) where
  eigenvalues : List K
  eigenvectors : List (List K)

/-- Lines 29-37: `d_i(j)` after the loop, `0` below the tolerance `1e-5` and
`1 / d_i(j)` otherwise. -/
def d_i (eigenvalues : List K) (j : Nat) : K :=
  if vecAt eigenvalues j < 1 / 100000 then 0 else 1 / vecAt eigenvalues j

/-- Line 39: `R_i(i,j)` of
`pca.eigenvectors() * d_i.asDiagonal() * pca.eigenvectors().transpose()`. -/
def R_i (pca : SelfAdjointEigenSolver K) (size i j : Nat) : K :=
  ∑ k in Finset.range size,
    matAt pca.eigenvectors i k * d_i pca.eigenvalues k * matAt pca.eigenvectors j k

/-- Line 43: `Q_diag(j) = R_i.col(j).dot(R.row(j).transpose())`. -/
def Q_diag (pca : SelfAdjointEigenSolver K) (R : List (List K)) (j : Nat) : K :=
  ∑ k in Finset.range R.length, R_i pca R.length k j * matAt R j k

/-- Lines 45-49: `multi_rsq_buf[j]` before the pairwise override; `none` is
`-inf`, the value of `1.0 - 1.0 / R_i(j,j)` when `R_i(j,j)` is zero. -/
def multi_rsq_buf (pca : SelfAdjointEigenSolver K) (R : List (List K)) (j : Nat) : Option K :=
  let m : Option K :=
    if |Q_diag pca R j - 1| < 1 / 100 then
      (if R_i pca R.length j j = 0 then none else some (1 - 1 / R_i pca R.length j j))
    else some 1
  match m with
  | some x => if x > 1 then some 1 else some x
  | none => none

/-- Lines 52-53: entry `(i, j)` of `R` after `R.diagonal() = 0` and
`R = R.array() * R.array()`. -/
def R_sq (R : List (List K)) (i j : Nat) : K :=
  if i = j then 0 else matAt R i j * matAt R i j

/-- Eigen `maxCoeff(&index)` over `n` coefficients: the first index of the
largest coefficient (the visitor starts at coefficient 0 and moves on `>`). -/
def maxCoeff (col : Nat → K) (n : Nat) : Nat :=
  (List.range n).foldl (fun best i => if col i > col best then i else best) 0

/-- Lines 58-59: `max_pos_buf[j]`, the row of the largest entry of column `j`. -/
def max_pos_buf (R : List (List K)) (j : Nat) : Nat :=
  maxCoeff (fun i => R_sq R i j) R.length

/-- Line 60: `max_rsq_buf[j] = R.col(j)[max_pos_buf[j]]`. -/
def max_rsq_buf (R : List (List K)) (j : Nat) : K :=
  R_sq R (max_pos_buf R j) j

/-- Line 61: `multi_rsq_buf[j]` after
`if(multi_rsq_buf[j] < max_rsq_buf[j]) multi_rsq_buf[j] = max_rsq_buf[j]`. -/
def multi_rsq (pca : SelfAdjointEigenSolver K) (R : List (List K)) (j : Nat) : K :=
  match multi_rsq_buf pca R j with
  | none => max_rsq_buf R j
  | some x => if x < max_rsq_buf R j then max_rsq_buf R j else x

/-- Lines 84-89: `vif[j]`. -/
def vif (pca : SelfAdjointEigenSolver K) (R : List (List K)) (j : Nat) : K :=
  if |1 - multi_rsq pca R j| < 1 / 100000 then 100000000
  else |1 / (1 - multi_rsq pca R j)|

/-- Lines 79-94: the pair `(max, pos)` after the selection loop has visited
`j = 0 .. n-1`, with `threshold = 10`. -/
def vif_select (v : Nat → K) (n : Nat) : K × Int :=
  (List.range n).foldl
    (fun (acc : K × Int) j => if v j > acc.1 ∧ v j > 10 then (v j, (j : Int)) else acc)
    (0, -1)

/-- The function `gcta::sbat_VIF_iter_rm_colin(MatrixXf R)`; `solver R` is what
`SelfAdjointEigenSolver` answers on `R`. (`eff_m` and `multi_rsq_buf_adj` of
lines 30-50 are computed by the source but never read, and are left out.) -/
def sbat_VIF_iter_rm_colin (solver : List (List K) → SelfAdjointEigenSolver K)
    (R : List (List K)) : Int :=
  let size := R.length
  let pca := solver R
  (vif_select (fun j => vif pca R j) size).2

/-- What `SelfAdjointEigenSolver` computes in exact arithmetic on the square
matrix `R`: the columns of `eigenvectors` are orthonormal, so are its rows, and
column `k` is an eigenvector of `R` for `eigenvalues(k)`. -/
def IsEigendecomposition (R : List (List K)) (pca : SelfAdjointEigenSolver K) : Prop :=
  (∀ i < R.length, ∀ j < R.length,
    ∑ k in Finset.range R.length, matAt pca.eigenvectors k i * matAt pca.eigenvectors k j =
      if i = j then 1 else 0) ∧
  (∀ i < R.length, ∀ j < R.length,
    ∑ k in Finset.range R.length, matAt pca.eigenvectors i k * matAt pca.eigenvectors j k =
      if i = j then 1 else 0) ∧
  (∀ i < R.length, ∀ k < R.length,
    ∑ j in Finset.range R.length, matAt R i j * matAt pca.eigenvectors j k =
      vecAt pca.eigenvalues k * matAt pca.eigenvectors i k)

instance (R : List (List K)) (pca : SelfAdjointEigenSolver K) :
    Decidable (IsEigendecomposition R pca) := by
  unfold IsEigendecomposition; infer_instance

/-- The solver is exact on every 1-by-1 matrix whose entry is 1. -/
def ExactOnUnit (solver : List (List K) → SelfAdjointEigenSolver K) : Prop :=
  ∀ R : List (List K), R.length = 1 → matAt R 0 0 = 1 → IsEigendecomposition R (solver R)

/-- The `n`-by-`n` identity matrix. -/
def identity_matrix (n : Nat) : List (List K) :=
  matBuild n n fun i j => if i = j then 1 else 0

/-- What Eigen `inverse()` computes in exact arithmetic on an invertible square
matrix `V`: a matrix `Vinv` with `Vinv * V = I` and `V * Vinv = I`. -/
def IsInverse (V Vinv : List (List K)) : Prop :=
  (∀ i < V.length, ∀ j < V.length,
    ∑ k in Finset.range V.length, matAt Vinv i k * matAt V k j = if i = j then 1 else 0) ∧
  (∀ i < V.length, ∀ j < V.length,
    ∑ k in Finset.range V.length, matAt V i k * matAt Vinv k j = if i = j then 1 else 0)

instance (V Vinv : List (List K)) : Decidable (IsInverse V Vinv) := by
  unfold IsInverse; infer_instance

/-- Variant `i` of the correlation matrix `C` is constant: its row and its
column are zero. -/
def ConstantVariant (C : List (List K)) (i : Nat) : Prop :=
  ∀ j < C.length, matAt C i j = 0 ∧ matAt C j i = 0

/-- The solver is exact on every matrix with one variant of diagonal entry 1 and
every other entry zero (one non-constant variant among constant ones). -/
def ExactOnSingle (solver : List (List K) → SelfAdjointEigenSolver K) : Prop :=
  ∀ (R : List (List K)) (u : Nat), u < R.length → matAt R u u = 1 →
    (∀ i < R.length, i ≠ u → ConstantVariant R i) → IsEigendecomposition R (solver R)

/-- The exact decomposition of a diagonal matrix: the diagonal entries as
eigenvalues, the identity as eigenvectors. -/
def diagonal_solver (R : List (List K)) : SelfAdjointEigenSolver K :=
  { eigenvalues := vecBuild R.length fun k => matAt R k k
    eigenvectors := identity_matrix R.length }

/-! ## An example: four equicorrelated variants -/

/-- The 4-by-4 matrix with unit diagonal and every off-diagonal entry `rho`. -/
def equicorrelated4 (rho : K) : List (List K) :=
  [[1, rho, rho, rho], [rho, 1, rho, rho], [rho, rho, 1, rho], [rho, rho, rho, 1]]

/-- The exact decomposition of `equicorrelated4 rho`: eigenvalue `1 + 3 rho` for
the eigenvector `(1,1,1,1)/2` and `1 - rho` for three more columns of the
normalised Hadamard matrix. -/
def equicorrelated4_pca (rho : K) : SelfAdjointEigenSolver K :=
  { eigenvalues := [1 + 3 * rho, 1 - rho, 1 - rho, 1 - rho]
    eigenvectors := [[1 / 2, 1 / 2, 1 / 2, 1 / 2], [1 / 2, -1 / 2, 1 / 2, -1 / 2],
                     [1 / 2, 1 / 2, -1 / 2, -1 / 2], [1 / 2, -1 / 2, -1 / 2, 1 / 2]] }

/-! ## `sbat_multi_calcu_V` -/

/-- Line 111: `sumsq_x[j] = X.col(j).dot(X.col(j))`; `X` is the list of its rows
(one row per individual). -/
def sumsq_x (X : List (List K)) (j : Nat) : K :=
  ∑ k in Finset.range X.length, matAt X k j * matAt X k j

/-- Lines 113-122: entry `(i, j)` of `C = X.transpose() * X` after the
normalisation by `d_buf = sqrt(sumsq_x[i] * sumsq_x[j])`. -/
def corr_entry (sqrt : K → K) (X : List (List K)) (i j : Nat) : K :=
  let d_buf := sqrt (sumsq_x X i * sumsq_x X j)
  if d_buf > 0 then (∑ k in Finset.range X.length, matAt X k i * matAt X k j) / d_buf
  else 0

/-- Lines 108-122: the `m`-by-`m` matrix `C` built from the genotype matrix `X`
of the `m` variants of the set. -/
def corr_matrix (sqrt : K → K) (X : List (List K)) (m : Nat) : List (List K) :=
  matBuild m m (corr_entry sqrt X)

/-- The variables of `sbat_multi_calcu_V` that the reduction loop of lines
141-184 reads and writes. -/
structure Reduction (K : Type) where
  C : List (List K)
  D : List (List K)
  snp_beta : List K
  snp_btse : List K
  snp_keep : List String
  new_C_indx : List Nat
  pos : Int
  count : Nat

/-- Lines 159-163: the indices `i < C.col(0).size()` with `pos != i`, in
increasing order. -/
def build_new_index (C : List (List K)) (pos : Int) : List Nat :=
  (List.range C.length).filter fun i => decide (pos ≠ (i : Int))

/-- Lines 148-183: one execution of the body of the `do ... while` loop. -/
def loop_body (solver : List (List K) → SelfAdjointEigenSolver K)
    (s : Reduction K) : Reduction K :=
  let tmp_beta := s.snp_beta
  let tmp_btse := s.snp_btse
  let tmp_keep := s.snp_keep
  let pos := sbat_VIF_iter_rm_colin solver s.D
  let new_C_indx := build_new_index s.C pos
  let n := new_C_indx.length
  let D := matBuild n n fun i j => matAt s.C (new_C_indx.getD i 0) (new_C_indx.getD j 0)
  { C := D
    D := D
    snp_beta := vecBuild n fun i => vecAt tmp_beta (new_C_indx.getD i 0)
    snp_btse := vecBuild n fun i => vecAt tmp_btse (new_C_indx.getD i 0)
    snp_keep := vecBuild n fun i => tmp_keep.getD (new_C_indx.getD i 0) ""
    new_C_indx := new_C_indx
    pos := pos
    count := s.count + 1 }

/-- Lines 147-184: the loop `do { body } while (pos > -1)`, allowed at most
`fuel` executions of its body; `none` when the loop is still running after
`fuel` executions. -/
def reduction_loop (solver : List (List K) → SelfAdjointEigenSolver K) :
    Nat → Reduction K → Option (Reduction K)
  | 0, _ => none
  | fuel + 1, s =>
    let s' := loop_body solver s
    if s'.pos > -1 then reduction_loop solver fuel s' else some s'

/-- Lines 132-146: the loop variables when the loop is entered (`D = C`,
`count = 0`, `pos` not yet assigned). -/
def reduction_init (C : List (List K)) (set_beta set_se : List K)
    (snp_kept : List String) : Reduction K :=
  { C := C, D := C, snp_beta := set_beta, snp_btse := set_se, snp_keep := snp_kept
    new_C_indx := [], pos := 0, count := 0 }

/-- The library functions that `mbat.cpp` calls and does not define: Eigen
`SelfAdjointEigenSolver` and `inverse`, `sqrt`, `StatFunc::pchisq(x, df)`, and
`make_XMat_subset`, which answers the genotype matrix of a list of variant
indices. -/
structure Library (K : Type) where
  solver : List (List K) → SelfAdjointEigenSolver K
  inverse : List (List K) → List (List K)
  sqrt : K → K
  pchisq : K → K → K
  make_XMat_subset : List Nat → List (List K)

/-- Lines 219-220: `V(i,j)` of `SE.array() * D.array()` with
`SE = snp_btse * snp_btse.transpose()`. -/
def V_matrix (snp_btse : List K) (D : List (List K)) : List (List K) :=
  matBuild snp_btse.length snp_btse.length fun i j =>
    vecAt snp_btse i * vecAt snp_btse j * matAt D i j

/-- Line 222: `snp_beta.transpose() * Vinv * snp_beta`. -/
def quadratic_form (snp_beta : List K) (Vinv : List (List K)) : K :=
  ∑ i in Finset.range snp_beta.length, ∑ j in Finset.range snp_beta.length,
    vecAt snp_beta i * matAt Vinv i j * vecAt snp_beta j

/-- The three results `sbat_multi_calcu_V` writes through its reference
parameters. -/
structure CalcuV (K : Type) where
  Vscore : K
  Vscore_p : K
  snp_count : Nat

/-- The function `gcta::sbat_multi_calcu_V`; `none` when the reduction loop needs
more than `fuel` executions of its body. -/
def sbat_multi_calcu_V (lib : Library K) (fuel : Nat) (snp_indx : List Nat)
    (set_beta set_se : List K) (snp_kept : List String) : Option (CalcuV K) :=
  let m := snp_indx.length
  let X := lib.make_XMat_subset snp_indx
  let C := corr_matrix lib.sqrt X m
  match reduction_loop lib.solver fuel (reduction_init C set_beta set_se snp_kept) with
  | none => none
  | some s =>
    let snp_count := s.new_C_indx.length
    let V := V_matrix s.snp_btse s.D
    let Vscore := quadratic_form s.snp_beta (lib.inverse V)
    let Vscore_p := lib.pchisq Vscore (s.snp_beta.length : K)
    some { Vscore := Vscore, Vscore_p := Vscore_p, snp_count := snp_count }

/-! ## `sbat_multi` -/

/-- What the loop of lines 263-312 leaves in `set_pval[i]`, `snp_num_in_set[i]`,
`num_snp_tested[i]` and `chisq_o[i]` for one set; `calcu_V_called` records
whether the iteration reached the call of `sbat_multi_calcu_V`. -/
structure SetResult (K : Type) where
  set_pval : K
  snp_num_in_set : Nat
  num_snp_tested : Nat
  chisq_o : K
  calcu_V_called : Bool

/-- Lines 261, 268: `snp_name_map.find(name)`; the map is filled by `insert`,
which keeps the first index of a repeated name. -/
def snp_name_map_find (snp_name : List String) (name : String) : Option Nat :=
  snp_name.indexOf? name

/-- Lines 266-270: the indices of the names of the set that the map resolves. -/
def resolve_snp_indx (snp_name : List String) (snpset_i : List String) : List Nat :=
  snpset_i.filterMap (snp_name_map_find snp_name)

/-- Lines 263-312: one iteration of the loop over the sets of `sbat_multi`. -/
def sbat_multi_set (lib : Library K) (fuel : Nat) (snp_name : List String)
    (snp_beta snp_btse : List K) (snpset_i : List String) : Option (SetResult K) :=
  let skip0 : Bool := decide (snpset_i.length < 1)
  let snp_indx := resolve_snp_indx snp_name snpset_i
  let snp_num_in_set := snp_indx.length
  let skip : Bool := skip0 || (!skip0 && decide (snp_num_in_set > 20000))
  if skip then
    some { set_pval := 2, snp_num_in_set := 0, num_snp_tested := 0, chisq_o := 0
           calcu_V_called := false }
  else
    let set_beta := vecBuild snp_indx.length fun ii => vecAt snp_beta (snp_indx.getD ii 0)
    let set_se := vecBuild snp_indx.length fun ii => vecAt snp_btse (snp_indx.getD ii 0)
    match sbat_multi_calcu_V lib fuel snp_indx set_beta set_se snp_name with
    | none => none
    | some r =>
      some { set_pval := r.Vscore_p, snp_num_in_set := snp_num_in_set
             num_snp_tested := r.snp_count, chisq_o := r.Vscore, calcu_V_called := true }

/-- Lines 320-323: the output loop writes a row for set `i` unless
`set_pval[i] > 1.5`. -/
def row_written (r : SetResult K) : Bool := !decide (r.set_pval > 3 / 2)

/-! ## `sbat_multi_gene` -/

/-- What the loop of lines 592-663 leaves in `gene_pval[i]`, `snp_num_in_gene[i]`,
`num_snp_tested[i]` and `chisq_o[i]` for one gene; `calcu_V_called` records
whether the iteration reached the call of `sbat_multi_calcu_V`. -/
structure GeneResult (K : Type) where
  gene_pval : K
  snp_num_in_gene : Int
  num_snp_tested : Nat
  chisq_o : K
  calcu_V_called : Bool

/-- Lines 602-606: what a skipped gene is left with (`num_snp_tested[i]` and
`chisq_o[i]` keep the zero the vectors were created with). -/
def gene_skipped : GeneResult K :=
  { gene_pval := 2, snp_num_in_gene := 0, num_snp_tested := 0, chisq_o := 0
    calcu_V_called := false }

/-- Line 612: the indices `j = iter1->second .. iter2->second`. -/
def gene_snp_indx (i1 i2 : Nat) : List Nat := List.range' i1 (i2 + 1 - i1)

/-- Lines 592-663: one iteration of the loop over the genes of `sbat_multi_gene`,
for a gene whose boundary variants are named `gene2snp_1` and `gene2snp_2`.
`snp_chisq` is created at line 517 with one zero per p-value and never written.
When a lookup fails `skip` is set, and what line 597 reads through the end
iterator is overwritten at line 604. -/
def sbat_multi_gene_step (lib : Library K) (fuel : Nat) (snp_name : List String)
    (snp_pval snp_beta snp_btse : List K) (gene2snp_1 gene2snp_2 : String) :
    Option (GeneResult K) :=
  let snp_chisq : List K := List.replicate snp_pval.length 0
  match snp_name_map_find snp_name gene2snp_1, snp_name_map_find snp_name gene2snp_2 with
  | some i1, some i2 =>
    let skip0 : Bool := decide (i1 ≥ i2)
    let snp_num_in_gene : Int := (i2 : Int) - (i1 : Int) + 1
    let skip : Bool := skip0 || (!skip0 && decide (snp_num_in_gene > 10000))
    if skip then some gene_skipped
    else
      let snp_indx := gene_snp_indx i1 i2
      let n := snp_num_in_gene.toNat
      let snp_kept := vecBuild n fun ii => snp_name.getD (snp_indx.getD ii 0) ""
      let set_beta := vecBuild n fun ii => vecAt snp_beta (snp_indx.getD ii 0)
      let set_se := vecBuild n fun ii => vecAt snp_btse (snp_indx.getD ii 0)
      let chisq_o := snp_indx.foldl (fun acc j => acc + vecAt snp_chisq j) 0
      if snp_num_in_gene = 1 then
        some { gene_pval := lib.pchisq chisq_o 1, snp_num_in_gene := snp_num_in_gene
               num_snp_tested := 1, chisq_o := chisq_o, calcu_V_called := false }
      else
        match sbat_multi_calcu_V lib fuel snp_indx set_beta set_se snp_kept with
        | none => none
        | some r =>
          some { gene_pval := r.Vscore_p, snp_num_in_gene := snp_num_in_gene
                 num_snp_tested := r.snp_count, chisq_o := r.Vscore, calcu_V_called := true }
  | _, _ => some gene_skipped

/-- Lines 670-671: the output loop writes a row for gene `i` unless
`gene_pval[i] > 1.5`. -/
def gene_row_written (r : GeneResult K) : Bool := !decide (r.gene_pval > 3 / 2)

/-! ## The selection loop of `sbat_VIF_iter_rm_colin` -/

/-- One more visit of the selection loop. -/
theorem vif_select_succ (v : Nat → K) (n : Nat) :
    vif_select v (n + 1) =
      if v n > (vif_select v n).1 ∧ v n > 10 then (v n, (n : Int)) else vif_select v n := by
  simp [vif_select, List.range_succ, List.foldl_append]

/-- Invariant of the selection loop after `n` visits. -/
theorem vif_select_spec (v : Nat → K) (n : Nat) :
    ((vif_select v n).2 = -1 ∧ (vif_select v n).1 = 0 ∧ ∀ j < n, v j ≤ 10) ∨
    (∃ p : Nat, p < n ∧ (vif_select v n).2 = (p : Int) ∧ (vif_select v n).1 = v p ∧
      10 < v p ∧ (∀ k < n, v k ≤ v p) ∧ ∀ k < p, v k < v p) := by
  induction n with
  | zero => left; simp [vif_select]
  | succ n ih =>
    rw [vif_select_succ]
    rcases ih with ⟨h2, h1, hall⟩ | ⟨p, hp, h2, h1, hgt, hmax, hfirst⟩
    · by_cases hv : v n > 10
      · have h0 : v n > (vif_select v n).1 := by rw [h1]; linarith
        right
        refine ⟨n, Nat.lt_succ_self n, ?_⟩
        rw [if_pos ⟨h0, hv⟩]
        refine ⟨rfl, rfl, hv, ?_, ?_⟩
        · intro k hk
          rcases Nat.lt_succ_iff_lt_or_eq.mp hk with hk | hk
          · exact le_trans (hall k hk) (le_of_lt hv)
          · rw [hk]
        · intro k hk; exact lt_of_le_of_lt (hall k hk) hv
      · left
        rw [if_neg (fun h => hv h.2)]
        refine ⟨h2, h1, ?_⟩
        intro k hk
        rcases Nat.lt_succ_iff_lt_or_eq.mp hk with hk | hk
        · exact hall k hk
        · rw [hk]; exact not_lt.mp hv
    · right
      by_cases hv : v n > (vif_select v n).1
      · have hv10 : v n > 10 := by rw [h1] at hv; exact lt_trans hgt hv
        refine ⟨n, Nat.lt_succ_self n, ?_⟩
        rw [if_pos ⟨hv, hv10⟩]
        rw [h1] at hv
        refine ⟨rfl, rfl, hv10, ?_, ?_⟩
        · intro k hk
          rcases Nat.lt_succ_iff_lt_or_eq.mp hk with hk | hk
          · exact le_trans (hmax k hk) (le_of_lt hv)
          · rw [hk]
        · intro k hk; exact lt_of_le_of_lt (hmax k hk) hv
      · refine ⟨p, Nat.lt_succ_of_lt hp, ?_⟩
        rw [if_neg (fun h => hv h.1)]
        refine ⟨h2, h1, hgt, ?_, hfirst⟩
        intro k hk
        rcases Nat.lt_succ_iff_lt_or_eq.mp hk with hk | hk
        · exact hmax k hk
        · rw [hk]; rw [h1] at hv; exact not_lt.mp hv

/-! ## 1-by-1 matrices -/

theorem maxCoeff_one (col : Nat → K) : maxCoeff col 1 = 0 := by
  simp [maxCoeff, List.range_succ]

theorem vif_select_one (v : Nat → K) :
    vif_select v 1 = if v 0 > 10 then (v 0, 0) else (0, -1) := by
  rw [vif_select_succ]
  have h0 : vif_select v 0 = (0, -1) := by simp [vif_select]
  rw [h0]
  by_cases h : v 0 > 10
  · have : v 0 > 0 := by linarith
    simp [h, this]
  · simp [h]

/-- On a 1-by-1 matrix `(r)` that the solver decomposes exactly, no removal is
asked for exactly when `r ≥ 1/10`. -/
theorem vif_one_by_one (solver : List (List K) → SelfAdjointEigenSolver K)
    (R : List (List K)) (hR : R.length = 1) (hE : IsEigendecomposition R (solver R)) :
    sbat_VIF_iter_rm_colin solver R = -1 ↔ 1 / 10 ≤ matAt R 0 0 := by
  obtain ⟨hcol, -, hev⟩ := hE
  rw [hR] at hcol hev
  have h1 := hcol 0 (by norm_num) 0 (by norm_num)
  have h2 := hev 0 (by norm_num) 0 (by norm_num)
  simp only [Finset.sum_range_one, if_true] at h1 h2
  set v := matAt (solver R).eigenvectors 0 0 with hv
  set r := matAt R 0 0 with hr
  have hvne : v ≠ 0 := by
    intro h; rw [h] at h1; simp at h1
  have hd : vecAt (solver R).eigenvalues 0 = r := by
    have : (r - vecAt (solver R).eigenvalues 0) * v = 0 := by linarith
    rcases mul_eq_zero.mp this with h | h
    · linarith
    · exact absurd h hvne
  have hRi : R_i (solver R) 1 0 0 = d_i (solver R).eigenvalues 0 := by
    simp only [R_i, Finset.sum_range_one]
    rw [← hv]
    calc v * d_i (solver R).eigenvalues 0 * v = (v * v) * d_i (solver R).eigenvalues 0 := by ring
      _ = _ := by rw [h1, one_mul]
  have hQ : Q_diag (solver R) R 0 = d_i (solver R).eigenvalues 0 * r := by
    simp only [Q_diag, hR, Finset.sum_range_one]
    rw [hRi]
  have hmax : max_rsq_buf R 0 = 0 := by
    simp [max_rsq_buf, max_pos_buf, hR, maxCoeff_one, R_sq]
  simp only [sbat_VIF_iter_rm_colin, hR, vif_select_one]
  by_cases hsmall : r < 1 / 100000
  · have hdi : d_i (solver R).eigenvalues 0 = 0 := by unfold d_i; rw [hd, if_pos hsmall]
    have hm : multi_rsq (solver R) R 0 = 1 := by
      simp only [multi_rsq, multi_rsq_buf, hQ, hR, hRi, hdi, hmax, zero_mul, zero_sub, abs_neg, abs_one]
      rw [if_neg (by norm_num)]
      simp
    have hvif : vif (solver R) R 0 = 100000000 := by
      simp [vif, hm]
    rw [hvif]
    norm_num
    linarith
  · have hrpos : 0 < r := by
      have := not_lt.mp hsmall
      linarith [show (0 : K) < 1 / 100000 by norm_num]
    have hdi : d_i (solver R).eigenvalues 0 = 1 / r := by unfold d_i; rw [hd, if_neg hsmall]
    have hrne : r ≠ 0 := ne_of_gt hrpos
    have hbuf : multi_rsq_buf (solver R) R 0 = some (1 - r) := by
      have hq1 : d_i (solver R).eigenvalues 0 * r = 1 := by rw [hdi]; field_simp
      have hne : (1 : K) / r ≠ 0 := by positivity
      simp only [multi_rsq_buf, hQ, hR, hRi, hq1, sub_self, abs_zero]
      rw [if_pos (by norm_num), hdi, if_neg hne]
      have : (1 : K) - 1 / (1 / r) = 1 - r := by field_simp
      rw [this]
      have : ¬ (1 - r > 1) := by linarith
      simp [this]
    by_cases hbig : 1 < r
    · have hm : multi_rsq (solver R) R 0 = 0 := by
        simp only [multi_rsq, hbuf, hmax]
        rw [if_pos (by linarith)]
      have hvif : vif (solver R) R 0 = 1 := by
        simp only [vif, hm]; norm_num
      rw [hvif]; norm_num; linarith
    · have hm : multi_rsq (solver R) R 0 = 1 - r := by
        simp only [multi_rsq, hbuf, hmax]
        rw [if_neg (by linarith)]
      have hvif : vif (solver R) R 0 = 1 / r := by
        simp only [vif, hm]
        have : (1 : K) - (1 - r) = r := by ring
        rw [this, abs_of_pos hrpos, if_neg hsmall, abs_of_pos (by positivity)]
      rw [hvif]
      by_cases h10 : 1 / r > 10
      · rw [if_pos h10]
        have : r < 1 / 10 := by
          rw [gt_iff_lt, lt_div_iff₀ hrpos] at h10
          linarith
        constructor
        · intro h; simp at h
        · intro h; linarith
      · rw [if_neg h10]
        have : 1 / 10 ≤ r := by
          have := not_lt.mp h10
          rw [div_le_iff₀ hrpos] at this
          linarith
        exact ⟨fun _ => this, fun _ => rfl⟩

/-! ## Vectors, matrices and the new index -/

theorem vecBuild_length {α : Type} (n : Nat) (f : Nat → α) : (vecBuild n f).length = n := by
  simp [vecBuild]

theorem vecAt_vecBuild (n : Nat) (f : Nat → K) (i : Nat) (hi : i < n) :
    vecAt (vecBuild n f) i = f i := by
  simp [vecAt, vecBuild, List.getD_eq_getElem?_getD, hi]

theorem matBuild_length (r c : Nat) (f : Nat → Nat → K) : (matBuild r c f).length = r := by
  simp [matBuild]

theorem matBuild_row_length (r c : Nat) (f : Nat → Nat → K) (row : List K)
    (h : row ∈ matBuild r c f) : row.length = c := by
  simp only [matBuild, List.mem_map] at h
  obtain ⟨i, _, rfl⟩ := h
  simp

theorem matAt_matBuild (r c : Nat) (f : Nat → Nat → K) (i j : Nat) (hi : i < r) (hj : j < c) :
    matAt (matBuild r c f) i j = f i j := by
  simp [matAt, matBuild, List.getD_eq_getElem?_getD, hi, hj]

/-- With `pos = -1` the new index is `0, 1, .., n-1`. -/
theorem build_new_index_neg (C : List (List K)) :
    build_new_index C (-1) = List.range C.length := by
  unfold build_new_index
  rw [List.filter_eq_self]
  intro a _
  simp only [decide_eq_true_eq]
  omega

/-- With `0 ≤ pos < n` the new index is `0, .., pos-1, pos+1, .., n-1`. -/
theorem build_new_index_pos (C : List (List K)) (p : Nat) (hp : p < C.length) :
    build_new_index C (p : Int) = List.range' 0 p ++ List.range' (p + 1) (C.length - p - 1) := by
  unfold build_new_index
  have hsplit : List.range C.length =
      List.range' 0 p ++ ([p] ++ List.range' (p + 1) (C.length - p - 1)) := by
    rw [List.range_eq_range']
    have h1 : [p] ++ List.range' (p + 1) (C.length - p - 1) = List.range' p (C.length - p) := by
      have : C.length - p = (C.length - p - 1) + 1 := by omega
      rw [this, List.range'_succ]; rfl
    rw [h1]
    have h2 := List.range'_append 0 p (C.length - p) 1
    simp only [Nat.zero_add, Nat.one_mul] at h2
    rw [h2]
    congr 1; omega
  rw [hsplit, List.filter_append, List.filter_append]
  have ha : List.filter (fun (i : Nat) => decide ((p : Int) ≠ (i : Int))) (List.range' 0 p) =
      List.range' 0 p := by
    rw [List.filter_eq_self]
    intro a ha
    simp only [List.mem_range'_1] at ha
    simp only [decide_eq_true_eq]; omega
  have hb : List.filter (fun (i : Nat) => decide ((p : Int) ≠ (i : Int))) [p] = [] := by
    simp
  have hc : List.filter (fun (i : Nat) => decide ((p : Int) ≠ (i : Int)))
      (List.range' (p + 1) (C.length - p - 1)) = List.range' (p + 1) (C.length - p - 1) := by
    rw [List.filter_eq_self]
    intro a ha
    simp only [List.mem_range'_1] at ha
    simp only [decide_eq_true_eq]; omega
  rw [ha, hb, hc, List.nil_append]

theorem build_new_index_pos_length (C : List (List K)) (p : Nat) (hp : p < C.length) :
    (build_new_index C (p : Int)).length = C.length - 1 := by
  rw [build_new_index_pos C p hp]; simp; omega

/-- Entry `i` of the new index: `i` before the removed position, `i + 1` from it on. -/
theorem build_new_index_pos_getD (C : List (List K)) (p : Nat) (hp : p < C.length) (i : Nat)
    (hi : i < C.length - 1) :
    (build_new_index C (p : Int)).getD i 0 = if i < p then i else i + 1 := by
  rw [build_new_index_pos C p hp]
  by_cases h : i < p
  · rw [if_pos h, List.getD_append _ _ _ _ (by simpa using h)]
    simp [List.getD_eq_getElem?_getD, h]
  · rw [if_neg h, List.getD_append_right _ _ _ _ (by simpa using not_lt.mp h)]
    have h2 : i - p < C.length - p - 1 := by omega
    simp [List.getD_eq_getElem?_getD, h2]
    omega

theorem build_new_index_neg_getD (C : List (List K)) (i : Nat) (hi : i < C.length) :
    (build_new_index C (-1)).getD i 0 = i := by
  rw [build_new_index_neg]; simp [List.getD_eq_getElem?_getD, hi]

/-- The answer of `sbat_VIF_iter_rm_colin` is `-1` or an index of the matrix. -/
theorem sbat_VIF_iter_rm_colin_range (solver : List (List K) → SelfAdjointEigenSolver K)
    (R : List (List K)) :
    sbat_VIF_iter_rm_colin solver R = -1 ∨
      ∃ p : Nat, p < R.length ∧ sbat_VIF_iter_rm_colin solver R = (p : Int) := by
  have key := vif_select_spec (fun j => vif (solver R) R j) R.length
  simp only [sbat_VIF_iter_rm_colin]
  rcases key with ⟨h2, _, _⟩ | ⟨p, hp, h2, _⟩
  · left; exact h2
  · right; exact ⟨p, hp, h2⟩

/-! ## The reduction loop -/

theorem loop_body_pos (solver : List (List K) → SelfAdjointEigenSolver K) (s : Reduction K) :
    (loop_body solver s).pos = sbat_VIF_iter_rm_colin solver s.D := rfl

theorem loop_body_count (solver : List (List K) → SelfAdjointEigenSolver K) (s : Reduction K) :
    (loop_body solver s).count = s.count + 1 := rfl

theorem loop_body_C_eq_D (solver : List (List K) → SelfAdjointEigenSolver K) (s : Reduction K) :
    (loop_body solver s).C = (loop_body solver s).D := rfl

theorem loop_body_new_C_indx (solver : List (List K) → SelfAdjointEigenSolver K)
    (s : Reduction K) :
    (loop_body solver s).new_C_indx = build_new_index s.C (loop_body solver s).pos := rfl

theorem loop_body_D_length (solver : List (List K) → SelfAdjointEigenSolver K)
    (s : Reduction K) :
    (loop_body solver s).D.length = (loop_body solver s).new_C_indx.length := by
  simp [loop_body, matBuild_length]

theorem loop_body_D_at (solver : List (List K) → SelfAdjointEigenSolver K) (s : Reduction K)
    (i j : Nat) (hi : i < (loop_body solver s).new_C_indx.length)
    (hj : j < (loop_body solver s).new_C_indx.length) :
    matAt (loop_body solver s).D i j =
      matAt s.C ((loop_body solver s).new_C_indx.getD i 0)
        ((loop_body solver s).new_C_indx.getD j 0) := by
  simp only [loop_body] at hi hj ⊢
  rw [matAt_matBuild _ _ _ _ _ hi hj]

/-- A removal shortens the new index by one. -/
theorem loop_body_removal_length (solver : List (List K) → SelfAdjointEigenSolver K)
    (s : Reduction K) (hCD : s.C.length = s.D.length) (h : (loop_body solver s).pos > -1) :
    (loop_body solver s).new_C_indx.length + 1 = s.C.length := by
  rw [loop_body_new_C_indx]
  rw [loop_body_pos] at h ⊢
  rcases sbat_VIF_iter_rm_colin_range solver s.D with h1 | ⟨p, hp, h1⟩
  · rw [h1] at h; omega
  · rw [h1, build_new_index_pos_length s.C p (by omega)]; omega

/-- Whatever the matrix and the solver, `n + 1` executions of the body are enough. -/
theorem reduction_loop_fuel (solver : List (List K) → SelfAdjointEigenSolver K) :
    ∀ (n : Nat) (s : Reduction K), s.C.length = n → s.D.length = n →
      ∃ s', reduction_loop solver (n + 1) s = some s' ∧ s'.count ≤ s.count + n + 1 ∧
        s'.pos = -1 := by
  intro n
  induction n with
  | zero =>
    intro s hC hD
    have hpos : (loop_body solver s).pos = -1 := by
      rw [loop_body_pos]
      rcases sbat_VIF_iter_rm_colin_range solver s.D with h1 | ⟨p, hp, _⟩
      · exact h1
      · omega
    refine ⟨loop_body solver s, ?_, ?_, hpos⟩
    · simp [reduction_loop, hpos]
    · rw [loop_body_count]
  | succ n ih =>
    intro s hC hD
    by_cases hpos : (loop_body solver s).pos > -1
    · have hlen := loop_body_removal_length solver s (by omega) hpos
      have hD' : (loop_body solver s).D.length = n := by
        rw [loop_body_D_length]; omega
      have hC' : (loop_body solver s).C.length = n := by rw [loop_body_C_eq_D]; exact hD'
      obtain ⟨s', hs', hcount, hfin⟩ := ih (loop_body solver s) hC' hD'
      refine ⟨s', ?_, ?_, hfin⟩
      · rw [reduction_loop]; simp only [hpos, if_true]; exact hs'
      · rw [loop_body_count] at hcount; omega
    · have hneg : (loop_body solver s).pos = -1 := by
        rw [loop_body_pos] at hpos ⊢
        rcases sbat_VIF_iter_rm_colin_range solver s.D with h1 | ⟨p, _, h1⟩
        · exact h1
        · rw [h1] at hpos; omega
      refine ⟨loop_body solver s, ?_, ?_, hneg⟩
      · rw [reduction_loop]; simp only [hpos, if_false]
      · rw [loop_body_count]; omega

/-- More fuel does not change the result of a loop that has stopped. -/
theorem reduction_loop_succ (solver : List (List K) → SelfAdjointEigenSolver K) :
    ∀ (fuel : Nat) (s r : Reduction K), reduction_loop solver fuel s = some r →
      reduction_loop solver (fuel + 1) s = some r := by
  intro fuel
  induction fuel with
  | zero => intro s r h; simp [reduction_loop] at h
  | succ n ih =>
    intro s r h
    rw [reduction_loop] at h ⊢
    by_cases hpos : (loop_body solver s).pos > -1
    · simp only [hpos, if_true] at h ⊢
      exact ih _ _ h
    · simp only [hpos, if_false] at h ⊢
      exact h

theorem reduction_loop_le (solver : List (List K) → SelfAdjointEigenSolver K)
    (fuel fuel' : Nat) (hle : fuel ≤ fuel') (s r : Reduction K)
    (h : reduction_loop solver fuel s = some r) :
    reduction_loop solver fuel' s = some r := by
  induction hle with
  | refl => exact h
  | step _ ih => exact reduction_loop_succ solver _ s r ih

/-- The solver that always answers eigenvalue 1 and eigenvector `(1)` is exact on
the 1-by-1 matrix `(1)`. -/
theorem exactOnUnit_const : ExactOnUnit (fun _ : List (List K) => ⟨[1], [[1]]⟩) := by
  intro R hR h1
  obtain ⟨row, rfl⟩ := List.length_eq_one.mp hR
  simp only [matAt, List.getD_cons_zero] at h1
  rw [List.getD_eq_getElem?_getD] at h1
  simp [IsEigendecomposition, matAt, vecAt, h1]

/-! ## Pairwise collinearity -/

/-- The pairwise maximum is a lower bound of the final multiple R-squared. -/
theorem max_rsq_buf_le_multi_rsq (pca : SelfAdjointEigenSolver K) (R : List (List K)) (j : Nat) :
    max_rsq_buf R j ≤ multi_rsq pca R j := by
  unfold multi_rsq
  cases multi_rsq_buf pca R j with
  | none => exact le_refl _
  | some x =>
    simp only
    split
    · exact le_refl _
    · rename_i h; exact not_lt.mp h

/-- The value of `multi_rsq_buf[j]` after the clipping of line 48 is at most 1. -/
theorem multi_rsq_buf_le_one (pca : SelfAdjointEigenSolver K) (R : List (List K)) (j : Nat)
    (x : K) (h : multi_rsq_buf pca R j = some x) : x ≤ 1 := by
  unfold multi_rsq_buf at h
  simp only at h
  split at h
  · rename_i y hy
    split at h
    · simp only [Option.some.injEq] at h; rw [← h]
    · rename_i hgt
      simp only [Option.some.injEq] at h; rw [← h]; exact not_lt.mp hgt
  · exact absurd h (by simp)

/-- The final multiple R-squared is at most 1 when the pairwise maximum is. -/
theorem multi_rsq_le_one (pca : SelfAdjointEigenSolver K) (R : List (List K)) (j : Nat)
    (h : max_rsq_buf R j ≤ 1) : multi_rsq pca R j ≤ 1 := by
  unfold multi_rsq
  cases hb : multi_rsq_buf pca R j with
  | none => exact h
  | some x =>
    simp only
    split
    · exact h
    · exact multi_rsq_buf_le_one pca R j x hb

/-- A multiple R-squared in `(0.9, 1]` gives a VIF above the threshold. -/
theorem vif_gt_ten (pca : SelfAdjointEigenSolver K) (R : List (List K)) (j : Nat)
    (h1 : 9 / 10 < multi_rsq pca R j) (h2 : multi_rsq pca R j ≤ 1) :
    vif pca R j > 10 := by
  unfold vif
  split
  · norm_num
  · rename_i hne
    have hpos : 0 < 1 - multi_rsq pca R j := by
      rcases lt_or_eq_of_le h2 with h | h
      · linarith
      · exfalso; apply hne; rw [h]; norm_num
    rw [abs_of_pos (by positivity), gt_iff_lt, lt_div_iff₀ hpos]
    linarith

/-- A VIF above the threshold forces a removal. -/
theorem sbat_VIF_iter_rm_colin_removes (solver : List (List K) → SelfAdjointEigenSolver K)
    (R : List (List K)) (j : Nat) (hj : j < R.length) (h : vif (solver R) R j > 10) :
    ∃ p : Nat, p < R.length ∧ sbat_VIF_iter_rm_colin solver R = (p : Int) := by
  have key := vif_select_spec (fun j => vif (solver R) R j) R.length
  simp only [sbat_VIF_iter_rm_colin]
  rcases key with ⟨_, _, hall⟩ | ⟨p, hp, h2, _⟩
  · exact absurd h (not_lt.mpr (hall j hj))
  · exact ⟨p, hp, h2⟩

theorem maxCoeff_two (col : Nat → K) : maxCoeff col 2 = if col 1 > col 0 then 1 else 0 := by
  simp [maxCoeff, List.range_succ]

/-- In the 2-by-2 matrix with off-diagonal entry `r`, the pairwise maximum of
column 0 is `r * r`. -/
theorem max_rsq_buf_pair (r : K) (a b : K) : max_rsq_buf [[a, r], [r, b]] 0 = r * r := by
  have hlen : ([[a, r], [r, b]] : List (List K)).length = 2 := rfl
  simp only [max_rsq_buf, max_pos_buf, hlen, maxCoeff_two]
  by_cases h : R_sq [[a, r], [r, b]] 1 0 > R_sq [[a, r], [r, b]] 0 0
  · rw [if_pos h]; simp [R_sq, matAt]
  · rw [if_neg h]
    have h0 : R_sq [[a, r], [r, b]] 0 0 = 0 := by simp [R_sq]
    have h1 : R_sq [[a, r], [r, b]] 1 0 = r * r := by simp [R_sq, matAt]
    rw [h0, h1] at h
    rw [h0]
    have := mul_self_nonneg r
    linarith [not_lt.mp h]

/-- First call on a pair with `0.9 < r * r ≤ 1`: one of the two indices is returned. -/
theorem sbat_VIF_iter_rm_colin_pair (solver : List (List K) → SelfAdjointEigenSolver K)
    (r : K) (hr1 : 9 / 10 < r * r) (hr2 : r * r ≤ 1) :
    sbat_VIF_iter_rm_colin solver [[1, r], [r, 1]] = 0 ∨
      sbat_VIF_iter_rm_colin solver [[1, r], [r, 1]] = 1 := by
  have hm := max_rsq_buf_pair r 1 1
  have hge := max_rsq_buf_le_multi_rsq (solver [[1, r], [r, 1]]) [[1, r], [r, 1]] 0
  have hle := multi_rsq_le_one (solver [[1, r], [r, 1]]) [[1, r], [r, 1]] 0 (by rw [hm]; exact hr2)
  rw [hm] at hge
  have hv := vif_gt_ten (solver [[1, r], [r, 1]]) [[1, r], [r, 1]] 0 (lt_of_lt_of_le hr1 hge) hle
  obtain ⟨p, hp, h⟩ := sbat_VIF_iter_rm_colin_removes solver [[1, r], [r, 1]] 0 (by simp) hv
  simp only [List.length_cons, List.length_nil] at hp
  have : p = 0 ∨ p = 1 := by omega
  rcases this with rfl | rfl
  · left; simpa using h
  · right; simpa using h

/-- The loop on a pair with `0.9 < r * r ≤ 1`: the first execution of the body
removes one variant and leaves the matrix `(1)`, the second removes none. -/
theorem reduction_loop_pair (solver : List (List K) → SelfAdjointEigenSolver K)
    (r : K) (set_beta set_se : List K) (snp_kept : List String)
    (hr1 : 9 / 10 < r * r) (hr2 : r * r ≤ 1) (hS : ExactOnUnit solver) :
    (loop_body solver (reduction_init [[1, r], [r, 1]] set_beta set_se snp_kept)).D = [[1]] ∧
    sbat_VIF_iter_rm_colin solver [[1]] = -1 ∧
    ∃ s, reduction_loop solver 2 (reduction_init [[1, r], [r, 1]] set_beta set_se snp_kept)
        = some s ∧ s.count = 2 ∧ s.pos = -1 ∧ s.new_C_indx.length = 1 ∧ s.D = [[1]] ∧
        s.snp_beta.length = 1 := by
  have hsecond : sbat_VIF_iter_rm_colin solver [[1]] = -1 := by
    rw [vif_one_by_one solver [[1]] rfl (hS [[1]] rfl (by simp [matAt]))]
    simp [matAt]; norm_num
  have hD : (loop_body solver (reduction_init [[1, r], [r, 1]] set_beta set_se snp_kept)).D
      = [[1]] ∧
      (loop_body solver (reduction_init [[1, r], [r, 1]] set_beta set_se snp_kept)).pos > -1 := by
    rcases sbat_VIF_iter_rm_colin_pair solver r hr1 hr2 with h | h
    · simp [loop_body, reduction_init, h, build_new_index, matBuild, matAt, List.range_succ]
    · simp [loop_body, reduction_init, h, build_new_index, matBuild, matAt, List.range_succ]
  refine ⟨hD.1, hsecond, ?_⟩
  set s1 := loop_body solver (reduction_init [[1, r], [r, 1]] set_beta set_se snp_kept) with hs1
  have hC1 : s1.C = [[1]] := by rw [hs1, loop_body_C_eq_D]; exact hD.1
  have hpos2 : (loop_body solver s1).pos = -1 := by rw [loop_body_pos, hD.1]; exact hsecond
  refine ⟨loop_body solver s1, ?_, ?_, hpos2, ?_, ?_, ?_⟩
  · simp only [reduction_loop]
    rw [← hs1, if_pos hD.2, if_neg (by rw [hpos2]; omega)]
  · rw [loop_body_count, hs1, loop_body_count]; rfl
  · rw [loop_body_new_C_indx, hpos2, build_new_index_neg, hC1]; rfl
  · simp [loop_body, hsecond, hD.1, hC1, build_new_index, matBuild, matAt, List.range_succ]
  · simp [loop_body, hsecond, hD.1, hC1, build_new_index, vecBuild, List.range_succ]

/-! ## No removal under an exact decomposition -/

theorem maxCoeff_succ (col : Nat → K) (n : Nat) :
    maxCoeff col (n + 1) = if col n > col (maxCoeff col n) then n else maxCoeff col n := by
  simp [maxCoeff, List.range_succ, List.foldl_append]

/-- The index answered by `maxCoeff` lies among the coefficients scanned. -/
theorem maxCoeff_lt (col : Nat → K) (n : Nat) : maxCoeff col (n + 1) < n + 1 := by
  induction n with
  | zero => simp [maxCoeff, List.range_succ]
  | succ n ih =>
    rw [maxCoeff_succ]
    split
    · omega
    · omega

/-- The coefficient at the index answered by `maxCoeff` is the largest one. -/
theorem maxCoeff_max (col : Nat → K) (n : Nat) :
    ∀ i < n + 1, col i ≤ col (maxCoeff col (n + 1)) := by
  induction n with
  | zero =>
    intro i hi
    have : i = 0 := by omega
    subst this
    simp [maxCoeff, List.range_succ]
  | succ n ih =>
    intro i hi
    rw [maxCoeff_succ]
    by_cases h : col (n + 1) > col (maxCoeff col (n + 1))
    · rw [if_pos h]
      rcases Nat.lt_succ_iff_lt_or_eq.mp hi with hi | hi
      · exact le_trans (ih i hi) (le_of_lt h)
      · rw [hi]
    · rw [if_neg h]
      rcases Nat.lt_succ_iff_lt_or_eq.mp hi with hi | hi
      · exact ih i hi
      · rw [hi]; exact not_lt.mp h

/-- When every VIF value is at most the threshold, no removal is asked for. -/
theorem sbat_VIF_iter_rm_colin_none (solver : List (List K) → SelfAdjointEigenSolver K)
    (R : List (List K)) (h : ∀ j < R.length, vif (solver R) R j ≤ 10) :
    sbat_VIF_iter_rm_colin solver R = -1 := by
  have key := vif_select_spec (fun j => vif (solver R) R j) R.length
  simp only [sbat_VIF_iter_rm_colin]
  rcases key with ⟨h2, _, _⟩ | ⟨p, hp, _, _, hgt, _⟩
  · exact h2
  · exact absurd hgt (not_lt.mpr (h p hp))

/-- A final multiple R-squared of at most 0.9 gives a VIF of at most 10. -/
theorem vif_le_ten (pca : SelfAdjointEigenSolver K) (R : List (List K)) (j : Nat)
    (h : multi_rsq pca R j ≤ 9 / 10) : vif pca R j ≤ 10 := by
  unfold vif
  have hpos : 0 < 1 - multi_rsq pca R j := by linarith
  have hne : ¬ |1 - multi_rsq pca R j| < 1 / 100000 := by
    rw [abs_of_pos hpos, not_lt]; linarith
  rw [if_neg hne, abs_of_pos (by positivity), div_le_iff₀ hpos]
  linarith

/-- The pairwise maximum of column `j` is at most 0.9 when every squared
off-diagonal entry of the column is. -/
theorem max_rsq_buf_le (R : List (List K)) (j : Nat) (hn : 0 < R.length)
    (h : ∀ i < R.length, i ≠ j → matAt R i j * matAt R i j ≤ 9 / 10) :
    max_rsq_buf R j ≤ 9 / 10 := by
  obtain ⟨n, hn'⟩ : ∃ n, R.length = n + 1 := ⟨R.length - 1, by omega⟩
  have hlt : max_pos_buf R j < R.length := by
    unfold max_pos_buf; rw [hn']; exact maxCoeff_lt _ n
  unfold max_rsq_buf R_sq
  split
  · norm_num
  · rename_i hij; exact h _ hlt hij

/-- Code-level criterion: a consistent row (`|Q_diag - 1| < 0.01`) with
`0 < R_i(j,j) ≤ 10` and pairwise maximum at most 0.9 has a VIF of at most 10. -/
theorem vif_le_ten_of (pca : SelfAdjointEigenSolver K) (R : List (List K)) (j : Nat)
    (hQ : |Q_diag pca R j - 1| < 1 / 100) (hpos : 0 < R_i pca R.length j j)
    (hle : R_i pca R.length j j ≤ 10) (hmax : max_rsq_buf R j ≤ 9 / 10) :
    vif pca R j ≤ 10 := by
  apply vif_le_ten
  have hinv : 1 / 10 ≤ 1 / R_i pca R.length j j := by
    rw [div_le_div_iff₀ (by norm_num) hpos]; linarith
  have hinvpos : 0 < 1 / R_i pca R.length j j := by positivity
  have hbuf : multi_rsq_buf pca R j = some (1 - 1 / R_i pca R.length j j) := by
    unfold multi_rsq_buf
    simp only [hQ, if_true, if_neg (ne_of_gt hpos)]
    rw [if_neg (by linarith)]
  unfold multi_rsq
  rw [hbuf]
  simp only
  split
  · exact hmax
  · linarith

/-- With an exact decomposition and every eigenvalue at least `1e-5`,
`Q_diag(j)` is exactly 1. -/
theorem Q_diag_exact (pca : SelfAdjointEigenSolver K) (R : List (List K))
    (hE : IsEigendecomposition R pca)
    (hev : ∀ k < R.length, 1 / 100000 ≤ vecAt pca.eigenvalues k) (j : Nat) (hj : j < R.length) :
    Q_diag pca R j = 1 := by
  obtain ⟨_, hrow, heig⟩ := hE
  unfold Q_diag R_i
  have h1 : ∀ k ∈ Finset.range R.length,
      (∑ l in Finset.range R.length,
        matAt pca.eigenvectors k l * d_i pca.eigenvalues l * matAt pca.eigenvectors j l)
        * matAt R j k =
      ∑ l in Finset.range R.length,
        d_i pca.eigenvalues l * matAt pca.eigenvectors j l *
          (matAt R j k * matAt pca.eigenvectors k l) := by
    intro k _
    rw [Finset.sum_mul]
    apply Finset.sum_congr rfl
    intro l _; ring
  rw [Finset.sum_congr rfl h1, Finset.sum_comm]
  have h2 : ∀ l ∈ Finset.range R.length,
      (∑ k in Finset.range R.length,
        d_i pca.eigenvalues l * matAt pca.eigenvectors j l *
          (matAt R j k * matAt pca.eigenvectors k l)) =
      matAt pca.eigenvectors j l * matAt pca.eigenvectors j l := by
    intro l hl
    have hl' := Finset.mem_range.mp hl
    rw [← Finset.mul_sum, heig j hj l hl']
    have hpos : 0 < vecAt pca.eigenvalues l :=
      lt_of_lt_of_le (by norm_num) (hev l hl')
    have hd : d_i pca.eigenvalues l = 1 / vecAt pca.eigenvalues l := by
      unfold d_i; rw [if_neg (not_lt.mpr (hev l hl'))]
    rw [hd]
    field_simp
    ring
  rw [Finset.sum_congr rfl h2, hrow j hj j hj, if_pos rfl]

/-- With an exact decomposition and every eigenvalue at least `1e-5`, `R_i` is
the inverse of `R`: `R * R_i` is the identity. -/
theorem R_mul_R_i_exact (pca : SelfAdjointEigenSolver K) (R : List (List K))
    (hE : IsEigendecomposition R pca)
    (hev : ∀ k < R.length, 1 / 100000 ≤ vecAt pca.eigenvalues k)
    (i j : Nat) (hi : i < R.length) (hj : j < R.length) :
    ∑ k in Finset.range R.length, matAt R i k * R_i pca R.length k j =
      if i = j then 1 else 0 := by
  obtain ⟨_, hrow, heig⟩ := hE
  unfold R_i
  have h1 : ∀ k ∈ Finset.range R.length,
      matAt R i k * (∑ l in Finset.range R.length,
        matAt pca.eigenvectors k l * d_i pca.eigenvalues l * matAt pca.eigenvectors j l) =
      ∑ l in Finset.range R.length,
        d_i pca.eigenvalues l * matAt pca.eigenvectors j l *
          (matAt R i k * matAt pca.eigenvectors k l) := by
    intro k _
    rw [Finset.mul_sum]
    apply Finset.sum_congr rfl
    intro l _; ring
  rw [Finset.sum_congr rfl h1, Finset.sum_comm]
  have h2 : ∀ l ∈ Finset.range R.length,
      (∑ k in Finset.range R.length,
        d_i pca.eigenvalues l * matAt pca.eigenvectors j l *
          (matAt R i k * matAt pca.eigenvectors k l)) =
      matAt pca.eigenvectors i l * matAt pca.eigenvectors j l := by
    intro l hl
    have hl' := Finset.mem_range.mp hl
    rw [← Finset.mul_sum, heig i hi l hl']
    have hpos : 0 < vecAt pca.eigenvalues l :=
      lt_of_lt_of_le (by norm_num) (hev l hl')
    have hd : d_i pca.eigenvalues l = 1 / vecAt pca.eigenvalues l := by
      unfold d_i; rw [if_neg (not_lt.mpr (hev l hl'))]
    rw [hd]
    field_simp
    ring
  rw [Finset.sum_congr rfl h2, hrow i hi j hj]

/-- With an exact decomposition and every eigenvalue at least `1e-5`, the
diagonal of `R_i` is positive. -/
theorem R_i_diag_pos (pca : SelfAdjointEigenSolver K) (R : List (List K))
    (hE : IsEigendecomposition R pca)
    (hev : ∀ k < R.length, 1 / 100000 ≤ vecAt pca.eigenvalues k) (j : Nat) (hj : j < R.length) :
    0 < R_i pca R.length j j := by
  obtain ⟨_, hrow, _⟩ := hE
  have hd : ∀ l < R.length, 0 < d_i pca.eigenvalues l := by
    intro l hl
    unfold d_i; rw [if_neg (not_lt.mpr (hev l hl))]
    have : 0 < vecAt pca.eigenvalues l := lt_of_lt_of_le (by norm_num) (hev l hl)
    positivity
  have hnn : ∀ l ∈ Finset.range R.length,
      0 ≤ matAt pca.eigenvectors j l * d_i pca.eigenvalues l * matAt pca.eigenvectors j l := by
    intro l hl
    have := hd l (Finset.mem_range.mp hl)
    have h2 := mul_self_nonneg (matAt pca.eigenvectors j l)
    nlinarith
  unfold R_i
  rcases lt_or_eq_of_le (Finset.sum_nonneg hnn) with h | h
  · exact h
  · exfalso
    have hz := (Finset.sum_eq_zero_iff_of_nonneg hnn).mp h.symm
    have hv : ∀ l ∈ Finset.range R.length,
        matAt pca.eigenvectors j l * matAt pca.eigenvectors j l = 0 := by
      intro l hl
      have h0 := hz l hl
      have hdl := hd l (Finset.mem_range.mp hl)
      have : matAt pca.eigenvectors j l * matAt pca.eigenvectors j l * d_i pca.eigenvalues l
          = 0 := by linarith [h0]
      rcases mul_eq_zero.mp this with h | h
      · exact h
      · exact absurd h (ne_of_gt hdl)
    have := hrow j hj j hj
    rw [Finset.sum_eq_zero hv, if_pos rfl] at this
    exact zero_ne_one this

/-- No removal on an exactly decomposed matrix whose eigenvalues are all at
least `1e-5`, whose squared off-diagonal entries are at most 0.9 and whose
`R_i` has every diagonal entry at most 10. -/
theorem vif_none_of_exact (solver : List (List K) → SelfAdjointEigenSolver K)
    (R : List (List K)) (hE : IsEigendecomposition R (solver R))
    (hev : ∀ k < R.length, 1 / 100000 ≤ vecAt (solver R).eigenvalues k)
    (hpair : ∀ i < R.length, ∀ j < R.length, i ≠ j → matAt R i j * matAt R i j ≤ 9 / 10)
    (hRi : ∀ j < R.length, R_i (solver R) R.length j j ≤ 10) :
    sbat_VIF_iter_rm_colin solver R = -1 := by
  apply sbat_VIF_iter_rm_colin_none
  intro j hj
  apply vif_le_ten_of
  · rw [Q_diag_exact (solver R) R hE hev j hj]; norm_num
  · exact R_i_diag_pos (solver R) R hE hev j hj
  · exact hRi j hj
  · exact max_rsq_buf_le R j (by omega) (fun i hi hij => hpair i hi j hj hij)

/-! ## Four equicorrelated variants -/

theorem equicorrelated4_length (rho : K) : (equicorrelated4 rho).length = 4 := rfl

theorem equicorrelated4_exact (rho : K) :
    IsEigendecomposition (equicorrelated4 rho) (equicorrelated4_pca rho) := by
  unfold IsEigendecomposition
  rw [equicorrelated4_length]
  refine ⟨?_, ?_, ?_⟩
  · intro i hi j hj
    interval_cases i <;> interval_cases j <;>
      simp only [Finset.sum_range_succ, Finset.sum_range_zero, equicorrelated4_pca, matAt,
        List.getD_cons_zero, List.getD_cons_succ] <;> norm_num
  · intro i hi j hj
    interval_cases i <;> interval_cases j <;>
      simp only [Finset.sum_range_succ, Finset.sum_range_zero, equicorrelated4_pca, matAt,
        List.getD_cons_zero, List.getD_cons_succ] <;> norm_num
  · intro i hi j hj
    interval_cases i <;> interval_cases j <;>
      simp only [Finset.sum_range_succ, Finset.sum_range_zero, equicorrelated4_pca,
        equicorrelated4, matAt, vecAt, List.getD_cons_zero, List.getD_cons_succ] <;> ring

theorem R_i_equicorrelated4 (rho : K) (j : Nat) (hj : j < 4) :
    R_i (equicorrelated4_pca rho) 4 j j =
      (d_i (equicorrelated4_pca rho).eigenvalues 0 +
        3 * d_i (equicorrelated4_pca rho).eigenvalues 1) / 4 := by
  have h2 : d_i (equicorrelated4_pca rho).eigenvalues 2 =
      d_i (equicorrelated4_pca rho).eigenvalues 1 := rfl
  have h3 : d_i (equicorrelated4_pca rho).eigenvalues 3 =
      d_i (equicorrelated4_pca rho).eigenvalues 1 := rfl
  simp only [R_i, Finset.sum_range_succ, Finset.sum_range_zero, h2, h3]
  interval_cases j <;>
    simp only [equicorrelated4_pca, matAt, List.getD_cons_zero, List.getD_cons_succ] <;> ring

/-- On a consistent row whose multiple R-squared `1 - 1 / R_i(j,j)` is not below
the pairwise maximum, the VIF is the diagonal entry `R_i(j,j)` itself. -/
theorem vif_eq_R_i (pca : SelfAdjointEigenSolver K) (R : List (List K)) (j : Nat)
    (hQ : |Q_diag pca R j - 1| < 1 / 100) (hpos : 0 < R_i pca R.length j j)
    (hle : R_i pca R.length j j ≤ 100000)
    (hmax : max_rsq_buf R j ≤ 1 - 1 / R_i pca R.length j j) :
    vif pca R j = R_i pca R.length j j := by
  have hinvpos : 0 < 1 / R_i pca R.length j j := by positivity
  have hinv : 1 / 100000 ≤ 1 / R_i pca R.length j j := by
    rw [div_le_div_iff₀ (by norm_num) hpos]; linarith
  have hbuf : multi_rsq_buf pca R j = some (1 - 1 / R_i pca R.length j j) := by
    unfold multi_rsq_buf
    simp only [hQ, if_true, if_neg (ne_of_gt hpos)]
    rw [if_neg (by linarith)]
  have hm : multi_rsq pca R j = 1 - 1 / R_i pca R.length j j := by
    unfold multi_rsq
    rw [hbuf]
    simp only
    rw [if_neg (not_lt.mpr hmax)]
  unfold vif
  rw [hm]
  have h1 : (1 : K) - (1 - 1 / R_i pca R.length j j) = 1 / R_i pca R.length j j := by ring
  rw [h1, abs_of_pos hinvpos, if_neg (not_lt.mpr hinv), one_div_one_div, abs_of_pos hpos]

/-- When every VIF value is the same value above the threshold, index 0 is
returned. -/
theorem sbat_VIF_iter_rm_colin_first (solver : List (List K) → SelfAdjointEigenSolver K)
    (R : List (List K)) (c : K) (hc : 10 < c) (hn : 0 < R.length)
    (h : ∀ j < R.length, vif (solver R) R j = c) :
    sbat_VIF_iter_rm_colin solver R = 0 := by
  have key := vif_select_spec (fun j => vif (solver R) R j) R.length
  simp only [sbat_VIF_iter_rm_colin]
  rcases key with ⟨_, _, hall⟩ | ⟨p, hp, h2, _, _, _, hfirst⟩
  · have := hall 0 hn
    rw [h 0 hn] at this
    exact absurd hc (not_lt.mpr this)
  · rw [h2]
    rcases Nat.eq_zero_or_pos p with h0 | h0
    · rw [h0]; rfl
    · have := hfirst 0 h0
      rw [h 0 hn, h p hp] at this
      exact absurd this (lt_irrefl c)

theorem equicorrelated4_eigenvalues (rho : K) (h1 : 1 / 100000 ≤ 1 + 3 * rho)
    (h2 : 1 / 100000 ≤ 1 - rho) :
    ∀ k < (equicorrelated4 rho).length,
      1 / 100000 ≤ vecAt (equicorrelated4_pca rho).eigenvalues k := by
  intro k hk
  rw [equicorrelated4_length] at hk
  interval_cases k <;>
    simp only [equicorrelated4_pca, vecAt, List.getD_cons_zero, List.getD_cons_succ] <;>
    assumption

theorem equicorrelated4_pair (rho : K) (h : rho * rho ≤ 9 / 10) :
    ∀ i < (equicorrelated4 rho).length, ∀ j < (equicorrelated4 rho).length, i ≠ j →
      matAt (equicorrelated4 rho) i j * matAt (equicorrelated4 rho) i j ≤ 9 / 10 := by
  intro i hi j hj hij
  rw [equicorrelated4_length] at hi hj
  interval_cases i <;> interval_cases j <;>
    first
    | exact absurd rfl hij
    | (simp only [equicorrelated4, matAt, List.getD_cons_zero, List.getD_cons_succ]; exact h)

theorem equicorrelated4_R_i_value (rho : K) (h1 : 1 / 100000 ≤ 1 + 3 * rho)
    (h2 : 1 / 100000 ≤ 1 - rho) (j : Nat) (hj : j < 4) :
    R_i (equicorrelated4_pca rho) 4 j j = (1 / (1 + 3 * rho) + 3 * (1 / (1 - rho))) / 4 := by
  rw [R_i_equicorrelated4 rho j hj]
  have e0 : d_i (equicorrelated4_pca rho).eigenvalues 0 = 1 / (1 + 3 * rho) := by
    simp only [d_i, equicorrelated4_pca, vecAt, List.getD_cons_zero]
    rw [if_neg (not_lt.mpr h1)]
  have e1 : d_i (equicorrelated4_pca rho).eigenvalues 1 = 1 / (1 - rho) := by
    simp only [d_i, equicorrelated4_pca, vecAt, List.getD_cons_zero, List.getD_cons_succ]
    rw [if_neg (not_lt.mpr h2)]
  rw [e0, e1]

/-! ## The identity correlation matrix -/

theorem identity_matrix_length (n : Nat) : (identity_matrix n : List (List K)).length = n :=
  matBuild_length _ _ _

theorem matAt_identity (n i j : Nat) (hi : i < n) (hj : j < n) :
    matAt (identity_matrix n : List (List K)) i j = if i = j then 1 else 0 :=
  matAt_matBuild _ _ _ _ _ hi hj

theorem matBuild_congr (r c : Nat) (f g : Nat → Nat → K)
    (h : ∀ i < r, ∀ j < c, f i j = g i j) : matBuild r c f = matBuild r c g := by
  unfold matBuild
  apply List.map_congr_left
  intro i hi
  apply List.map_congr_left
  intro j hj
  exact h i (List.mem_range.mp hi) j (List.mem_range.mp hj)

theorem vecBuild_vecAt (v : List K) : vecBuild v.length (fun i => vecAt v i) = v := by
  apply List.ext_getElem
  · simp [vecBuild]
  · intro i h1 h2
    simp [vecBuild, vecAt, List.getD_eq_getElem?_getD, h2]

/-- An exact decomposition of the identity has every eigenvalue equal to 1. -/
theorem identity_eigenvalues (n : Nat) (pca : SelfAdjointEigenSolver K)
    (hE : IsEigendecomposition (identity_matrix n) pca) (k : Nat) (hk : k < n) :
    vecAt pca.eigenvalues k = 1 := by
  obtain ⟨hcol, _, heig⟩ := hE
  rw [identity_matrix_length] at hcol heig
  have hne : ∃ i < n, matAt pca.eigenvectors i k ≠ 0 := by
    by_contra hcon
    push_neg at hcon
    have := hcol k hk k hk
    rw [Finset.sum_eq_zero (fun i hi => by rw [hcon i (Finset.mem_range.mp hi), zero_mul]),
      if_pos rfl] at this
    exact zero_ne_one this
  obtain ⟨i, hi, hv⟩ := hne
  have h := heig i hi k hk
  have hsum : ∑ j in Finset.range n,
      matAt (identity_matrix n : List (List K)) i j * matAt pca.eigenvectors j k =
      matAt pca.eigenvectors i k := by
    rw [Finset.sum_eq_single i]
    · rw [matAt_identity n i i hi hi, if_pos rfl, one_mul]
    · intro j hj hji
      rw [matAt_identity n i j hi (Finset.mem_range.mp hj), if_neg (Ne.symm hji), zero_mul]
    · intro h; exact absurd (Finset.mem_range.mpr hi) h
  rw [hsum] at h
  have : (1 - vecAt pca.eigenvalues k) * matAt pca.eigenvectors i k = 0 := by linarith
  rcases mul_eq_zero.mp this with h | h
  · linarith
  · exact absurd h hv

/-- On the exactly decomposed identity matrix every diagonal entry of `R_i` is 1. -/
theorem identity_R_i (n : Nat) (pca : SelfAdjointEigenSolver K)
    (hE : IsEigendecomposition (identity_matrix n) pca) (j : Nat) (hj : j < n) :
    R_i pca n j j = 1 := by
  have hev := identity_eigenvalues n pca hE
  obtain ⟨_, hrow, _⟩ := hE
  rw [identity_matrix_length] at hrow
  unfold R_i
  have : ∀ k ∈ Finset.range n,
      matAt pca.eigenvectors j k * d_i pca.eigenvalues k * matAt pca.eigenvectors j k =
      matAt pca.eigenvectors j k * matAt pca.eigenvectors j k := by
    intro k hk
    have hd : d_i pca.eigenvalues k = 1 := by
      unfold d_i; rw [hev k (Finset.mem_range.mp hk)]; norm_num
    rw [hd, mul_one]
  rw [Finset.sum_congr rfl this, hrow j hj j hj, if_pos rfl]

/-- No removal on the exactly decomposed identity matrix. -/
theorem sbat_VIF_iter_rm_colin_identity (solver : List (List K) → SelfAdjointEigenSolver K)
    (n : Nat) (hE : IsEigendecomposition (identity_matrix n) (solver (identity_matrix n))) :
    sbat_VIF_iter_rm_colin solver (identity_matrix n) = -1 := by
  apply vif_none_of_exact solver _ hE
  · intro k hk
    rw [identity_matrix_length] at hk
    rw [identity_eigenvalues n _ hE k hk]; norm_num
  · intro i hi j hj hij
    rw [identity_matrix_length] at hi hj
    rw [matAt_identity n i j hi hj, if_neg hij]; norm_num
  · intro j hj
    rw [identity_matrix_length] at hj ⊢
    rw [identity_R_i n _ hE j hj]; norm_num

/-- One execution of the body on the identity matrix: nothing is removed and
the loop stops. -/
theorem reduction_loop_identity (solver : List (List K) → SelfAdjointEigenSolver K)
    (n : Nat) (set_beta set_se : List K) (snp_kept : List String)
    (hb : set_beta.length = n) (hs : set_se.length = n)
    (hE : IsEigendecomposition (identity_matrix n) (solver (identity_matrix n))) :
    reduction_loop solver 1 (reduction_init (identity_matrix n) set_beta set_se snp_kept) =
      some { C := identity_matrix n, D := identity_matrix n, snp_beta := set_beta
             snp_btse := set_se
             snp_keep := vecBuild n fun i => snp_kept.getD ((List.range n).getD i 0) ""
             new_C_indx := List.range n
             pos := -1, count := 1 } := by
  have hpos := sbat_VIF_iter_rm_colin_identity solver n hE
  have hidx : build_new_index (identity_matrix n : List (List K)) (-1) = List.range n := by
    rw [build_new_index_neg, identity_matrix_length]
  have hD : matBuild n n (fun i j => matAt (identity_matrix n : List (List K))
      ((List.range n).getD i 0) ((List.range n).getD j 0)) = identity_matrix n := by
    unfold identity_matrix
    apply matBuild_congr
    intro i hi j hj
    have e1 : (List.range n).getD i 0 = i := by simp [List.getD_eq_getElem?_getD, hi]
    have e2 : (List.range n).getD j 0 = j := by simp [List.getD_eq_getElem?_getD, hj]
    rw [e1, e2, matAt_matBuild _ _ _ _ _ hi hj]
  have hvec : ∀ v : List K, v.length = n →
      vecBuild n (fun i => vecAt v ((List.range n).getD i 0)) = v := by
    intro v hv
    have : vecBuild n (fun i => vecAt v ((List.range n).getD i 0)) =
        vecBuild v.length (fun i => vecAt v i) := by
      rw [hv]; unfold vecBuild
      apply List.map_congr_left
      intro i hi
      have e1 : (List.range n).getD i 0 = i := by
        simp [List.getD_eq_getElem?_getD, List.mem_range.mp hi]
      rw [e1]
    rw [this, vecBuild_vecAt]
  simp only [reduction_loop, loop_body, reduction_init, hpos, hidx, List.length_range, hD,
    hvec set_beta hb, hvec set_se hs]
  simp

theorem V_matrix_length (se : List K) (D : List (List K)) : (V_matrix se D).length = se.length :=
  matBuild_length _ _ _

/-- With the identity as correlation matrix, `V` is diagonal with entries `se_i^2`. -/
theorem matAt_V_matrix_identity (se : List K) (i j : Nat) (hi : i < se.length)
    (hj : j < se.length) :
    matAt (V_matrix se (identity_matrix se.length)) i j =
      if i = j then vecAt se i * vecAt se i else 0 := by
  unfold V_matrix
  rw [matAt_matBuild _ _ _ _ _ hi hj, matAt_identity _ i j hi hj]
  split
  · rename_i h; rw [h, mul_one]
  · rw [mul_zero]

/-- An exact inverse of the diagonal matrix `V` is diagonal with entries `1 / se_i^2`. -/
theorem inverse_V_matrix_identity (se : List K) (Vinv : List (List K))
    (hse : ∀ i < se.length, vecAt se i ≠ 0)
    (hI : IsInverse (V_matrix se (identity_matrix se.length)) Vinv)
    (i j : Nat) (hi : i < se.length) (hj : j < se.length) :
    matAt Vinv i j = if i = j then 1 / (vecAt se i * vecAt se i) else 0 := by
  have h := hI.1
  rw [V_matrix_length] at h
  have hij := h i hi j hj
  have hsum : ∑ k in Finset.range se.length,
      matAt Vinv i k * matAt (V_matrix se (identity_matrix se.length)) k j =
      matAt Vinv i j * (vecAt se j * vecAt se j) := by
    rw [Finset.sum_eq_single j]
    · rw [matAt_V_matrix_identity se j j hj hj, if_pos rfl]
    · intro k hk hkj
      rw [matAt_V_matrix_identity se k j (Finset.mem_range.mp hk) hj, if_neg hkj, mul_zero]
    · intro h; exact absurd (Finset.mem_range.mpr hj) h
  rw [hsum] at hij
  have hne : vecAt se j * vecAt se j ≠ 0 := mul_ne_zero (hse j hj) (hse j hj)
  by_cases e : i = j
  · rw [if_pos e] at hij ⊢
    rw [e]; field_simp; rw [e] at hij; exact hij
  · rw [if_neg e] at hij ⊢
    rcases mul_eq_zero.mp hij with h | h
    · exact h
    · exact absurd h hne

/-- The quadratic form with the exact inverse of the diagonal `V`. -/
theorem quadratic_form_identity (beta se : List K) (Vinv : List (List K))
    (hb : beta.length = se.length) (hse : ∀ i < se.length, vecAt se i ≠ 0)
    (hI : IsInverse (V_matrix se (identity_matrix se.length)) Vinv) :
    quadratic_form beta Vinv =
      ∑ i in Finset.range se.length, (vecAt beta i / vecAt se i) ^ 2 := by
  unfold quadratic_form
  rw [hb]
  apply Finset.sum_congr rfl
  intro i hi
  have hi' := Finset.mem_range.mp hi
  rw [Finset.sum_eq_single i]
  · rw [inverse_V_matrix_identity se Vinv hse hI i i hi' hi', if_pos rfl]
    have := hse i hi'
    field_simp
    ring
  · intro j hj hji
    rw [inverse_V_matrix_identity se Vinv hse hI i j hi' (Finset.mem_range.mp hj),
      if_neg (Ne.symm hji), mul_zero, zero_mul]
  · intro h; exact absurd hi h

/-! ## The rebuild step and the correlation matrix -/

/-- Every entry of the new index is a row of `C`. -/
theorem build_new_index_lt (C : List (List K)) (pos : Int) (i : Nat)
    (hi : i < (build_new_index C pos).length) :
    (build_new_index C pos).getD i 0 < C.length := by
  have hmem : (build_new_index C pos).getD i 0 ∈ build_new_index C pos := by
    rw [List.getD_eq_getElem _ _ hi]
    exact List.getElem_mem hi
  unfold build_new_index at hmem
  exact List.mem_range.mp (List.mem_filter.mp hmem).1

theorem sumsq_x_nonneg (X : List (List K)) (j : Nat) : 0 ≤ sumsq_x X j :=
  Finset.sum_nonneg fun k _ => mul_self_nonneg (matAt X k j)

/-- Cauchy-Schwarz for two columns of `X`. -/
theorem cross_product_sq_le (X : List (List K)) (i j : Nat) :
    (∑ k in Finset.range X.length, matAt X k i * matAt X k j) ^ 2 ≤
      sumsq_x X i * sumsq_x X j := by
  have h := Finset.sum_mul_sq_le_sq_mul_sq (Finset.range X.length)
    (fun k => matAt X k i) (fun k => matAt X k j)
  unfold sumsq_x
  simpa [pow_two] using h

theorem corr_entry_symm (sqrt : K → K) (X : List (List K)) (i j : Nat) :
    corr_entry sqrt X i j = corr_entry sqrt X j i := by
  unfold corr_entry
  have h1 : sumsq_x X i * sumsq_x X j = sumsq_x X j * sumsq_x X i := mul_comm _ _
  have h2 : ∑ k in Finset.range X.length, matAt X k i * matAt X k j =
      ∑ k in Finset.range X.length, matAt X k j * matAt X k i :=
    Finset.sum_congr rfl fun k _ => mul_comm _ _
  rw [h1, h2]

theorem corr_entry_abs_le (sqrt : K → K) (X : List (List K)) (i j : Nat)
    (hsqrt : ∀ x : K, 0 ≤ x → 0 ≤ sqrt x ∧ sqrt x * sqrt x = x) :
    |corr_entry sqrt X i j| ≤ 1 := by
  unfold corr_entry
  simp only
  split
  · rename_i hd
    have hnn : 0 ≤ sumsq_x X i * sumsq_x X j :=
      mul_nonneg (sumsq_x_nonneg X i) (sumsq_x_nonneg X j)
    have hsq := (hsqrt _ hnn).2
    have hcs := cross_product_sq_le X i j
    rw [abs_div, abs_of_pos hd, div_le_one hd]
    apply abs_le_of_sq_le_sq _ (le_of_lt hd)
    rw [pow_two (sqrt _), hsq]
    exact hcs
  · simp

/-! ## Degenerate sets -/

/-- No removal on the 0-by-0 matrix: the selection loop has nothing to visit. -/
theorem sbat_VIF_iter_rm_colin_empty (solver : List (List K) → SelfAdjointEigenSolver K) :
    sbat_VIF_iter_rm_colin solver [] = -1 := by
  simp [sbat_VIF_iter_rm_colin, vif_select]

/-- No removal on the matrix `(1)` with a solver that is exact on it. -/
theorem sbat_VIF_iter_rm_colin_unit (solver : List (List K) → SelfAdjointEigenSolver K)
    (hS : ExactOnUnit solver) : sbat_VIF_iter_rm_colin solver [[1]] = -1 := by
  rw [vif_one_by_one solver [[1]] rfl (hS [[1]] rfl (by simp [matAt]))]
  simp [matAt]; norm_num

/-! ## Constant and isolated variants -/

/-- A returned index has a VIF above the threshold. -/
theorem sbat_VIF_iter_rm_colin_vif (solver : List (List K) → SelfAdjointEigenSolver K)
    (R : List (List K)) (p : Nat) (h : sbat_VIF_iter_rm_colin solver R = (p : Int)) :
    p < R.length ∧ vif (solver R) R p > 10 := by
  have key := vif_select_spec (fun j => vif (solver R) R j) R.length
  simp only [sbat_VIF_iter_rm_colin] at h
  rcases key with ⟨h2, _, _⟩ | ⟨q, hq, h2, _, hgt, _⟩
  · rw [h2] at h; omega
  · rw [h2] at h
    have : q = p := by exact_mod_cast h
    rw [← this]; exact ⟨hq, hgt⟩

/-- A variant with diagonal entry 1 that is uncorrelated with every other
variant has VIF 1 under an exact decomposition. -/
theorem vif_isolated (pca : SelfAdjointEigenSolver K) (R : List (List K)) (u : Nat)
    (hE : IsEigendecomposition R pca) (hu : u < R.length) (hdiag : matAt R u u = 1)
    (hrow : ∀ j < R.length, j ≠ u → matAt R u j = 0)
    (hcol : ∀ i < R.length, i ≠ u → matAt R i u = 0) :
    vif pca R u = 1 := by
  obtain ⟨_, horth, heig⟩ := hE
  have hrowsum : ∀ (f : Nat → K),
      ∑ j in Finset.range R.length, matAt R u j * f j = f u := by
    intro f
    rw [Finset.sum_eq_single u]
    · rw [hdiag, one_mul]
    · intro j hj hju; rw [hrow j (Finset.mem_range.mp hj) hju, zero_mul]
    · intro h; exact absurd (Finset.mem_range.mpr hu) h
  have hterm : ∀ k ∈ Finset.range R.length,
      matAt pca.eigenvectors u k * d_i pca.eigenvalues k * matAt pca.eigenvectors u k =
      matAt pca.eigenvectors u k * matAt pca.eigenvectors u k := by
    intro k hk
    by_cases hv : matAt pca.eigenvectors u k = 0
    · rw [hv]; ring
    · have h := heig u hu k (Finset.mem_range.mp hk)
      rw [hrowsum (fun j => matAt pca.eigenvectors j k)] at h
      have : (1 - vecAt pca.eigenvalues k) * matAt pca.eigenvectors u k = 0 := by linarith
      have hd1 : vecAt pca.eigenvalues k = 1 := by
        rcases mul_eq_zero.mp this with h | h
        · linarith
        · exact absurd h hv
      have hd : d_i pca.eigenvalues k = 1 := by unfold d_i; rw [hd1]; norm_num
      rw [hd, mul_one]
  have hRi : R_i pca R.length u u = 1 := by
    unfold R_i
    rw [Finset.sum_congr rfl hterm, horth u hu u hu, if_pos rfl]
  have hQ : Q_diag pca R u = 1 := by
    unfold Q_diag
    have : ∀ k ∈ Finset.range R.length,
        R_i pca R.length k u * matAt R u k = matAt R u k * R_i pca R.length k u :=
      fun k _ => mul_comm _ _
    rw [Finset.sum_congr rfl this, hrowsum (fun k => R_i pca R.length k u), hRi]
  have hmax : max_rsq_buf R u = 0 := by
    unfold max_rsq_buf R_sq
    split
    · rfl
    · rename_i hne
      have hlt : max_pos_buf R u < R.length := by
        obtain ⟨n, hn⟩ : ∃ n, R.length = n + 1 := ⟨R.length - 1, by omega⟩
        unfold max_pos_buf; rw [hn]; exact maxCoeff_lt _ n
      rw [hcol _ hlt hne, mul_zero]
  rw [vif_eq_R_i pca R u (by rw [hQ]; norm_num) (by rw [hRi]; norm_num)
    (by rw [hRi]; norm_num) (by rw [hmax, hRi]; norm_num), hRi]

/-- The diagonal solver is exact on every matrix with one non-constant variant. -/
theorem exactOnSingle_diagonal_solver :
    ExactOnSingle (diagonal_solver : List (List K) → SelfAdjointEigenSolver K) := by
  intro R u hu hdiag hconst
  have hid : ∀ i < R.length, ∀ j < R.length,
      ∑ k in Finset.range R.length,
        (if i = k then (1 : K) else 0) * (if j = k then (1 : K) else 0) =
      if i = j then 1 else 0 := by
    intro i hi j hj
    rw [Finset.sum_eq_single i]
    · by_cases hij : i = j
      · simp [hij]
      · simp [hij, Ne.symm hij]
    · intro k _ hki; simp [Ne.symm hki]
    · intro h; exact absurd (Finset.mem_range.mpr hi) h
  have hat : ∀ i < R.length, ∀ j < R.length,
      matAt (diagonal_solver R).eigenvectors i j = if i = j then 1 else 0 :=
    fun i hi j hj => matAt_identity _ i j hi hj
  have hoff : ∀ i < R.length, ∀ j < R.length, i ≠ j → matAt R i j = 0 := by
    intro i hi j hj hij
    by_cases hiu : i = u
    · have hju : j ≠ u := fun h => hij (by rw [hiu, h])
      exact ((hconst j hj hju) i hi).2
    · exact ((hconst i hi hiu) j hj).1
  refine ⟨?_, ?_, ?_⟩
  · intro i hi j hj
    rw [← hid i hi j hj]
    apply Finset.sum_congr rfl
    intro k hk
    have hk' := Finset.mem_range.mp hk
    rw [hat k hk' i hi, hat k hk' j hj]
    simp only [eq_comm]
  · intro i hi j hj
    rw [← hid i hi j hj]
    apply Finset.sum_congr rfl
    intro k hk
    have hk' := Finset.mem_range.mp hk
    rw [hat i hi k hk', hat j hj k hk']
  · intro i hi k hk
    have hval : vecAt (diagonal_solver R).eigenvalues k = matAt R k k := by
      simp only [diagonal_solver]
      exact vecAt_vecBuild _ _ k hk
    rw [hval, hat i hi k hk]
    rw [Finset.sum_eq_single k]
    · rw [hat k hk k hk, if_pos rfl, mul_one]
      by_cases hik : i = k
      · rw [hik, if_pos rfl, mul_one]
      · rw [if_neg hik, mul_zero]; exact hoff i hi k hk hik
    · intro j hj hjk
      rw [hat j (Finset.mem_range.mp hj) k hk, if_neg hjk, mul_zero]
    · intro h; exact absurd (Finset.mem_range.mpr hk) h

/-- After a removal at `p`, every surviving variant `u` has a new position. -/
theorem build_new_index_pos_surj (C : List (List K)) (p : Nat) (hp : p < C.length) (u : Nat)
    (hu : u < C.length) (hup : u ≠ p) :
    ∃ i < C.length - 1, (build_new_index C (p : Int)).getD i 0 = u := by
  by_cases h : u < p
  · refine ⟨u, by omega, ?_⟩
    rw [build_new_index_pos_getD C p hp u (by omega), if_pos h]
  · refine ⟨u - 1, by omega, ?_⟩
    rw [build_new_index_pos_getD C p hp (u - 1) (by omega), if_neg (by omega)]
    omega

/-- With one non-constant variant at least, each variant either of diagonal
entry 1 or constant, and a solver exact on the matrices with a single
non-constant variant, `n` executions of the body are enough and a variant is
kept. -/
theorem reduction_loop_fuel_shape (solver : List (List K) → SelfAdjointEigenSolver K)
    (hS : ExactOnSingle solver) :
    ∀ (n : Nat) (s : Reduction K), s.C.length = n + 1 → s.D = s.C →
      (∀ i < s.C.length, matAt s.C i i = 1 ∨ ConstantVariant s.C i) →
      (∃ u < s.C.length, matAt s.C u u = 1) →
      ∃ s', reduction_loop solver (n + 1) s = some s' ∧ s'.count ≤ s.count + n + 1 ∧
        s'.pos = -1 ∧ 1 ≤ s'.new_C_indx.length := by
  intro n
  induction n with
  | zero =>
    intro s hC hD hshape hunit
    obtain ⟨u, hu, hu1⟩ := hunit
    have hu0 : u = 0 := by omega
    subst hu0
    have hE : IsEigendecomposition s.C (solver s.C) :=
      hS s.C 0 hu hu1 (fun i hi hi0 => absurd (by omega) hi0)
    have hpos : (loop_body solver s).pos = -1 := by
      rw [loop_body_pos, hD, vif_one_by_one solver s.C hC hE, hu1]; norm_num
    refine ⟨loop_body solver s, ?_, ?_, hpos, ?_⟩
    · simp [reduction_loop, hpos]
    · rw [loop_body_count]
    · rw [loop_body_new_C_indx, hpos, build_new_index_neg, List.length_range, hC]
  | succ n ih =>
    intro s hC hD hshape hunit
    by_cases hpos : (loop_body solver s).pos > -1
    · have hlen := loop_body_removal_length solver s (by rw [hD]) hpos
      have hD' : (loop_body solver s).D.length = n + 1 := by
        rw [loop_body_D_length]; omega
      have hC' : (loop_body solver s).C.length = n + 1 := by rw [loop_body_C_eq_D]; exact hD'
      have hp := hpos
      rw [loop_body_pos] at hp
      obtain ⟨p, hp2, h1⟩ : ∃ p : Nat, p < s.C.length ∧
          sbat_VIF_iter_rm_colin solver s.D = (p : Int) := by
        rcases sbat_VIF_iter_rm_colin_range solver s.D with h1 | ⟨p, hp2, h1⟩
        · rw [h1] at hp; omega
        · exact ⟨p, by rw [← hD]; exact hp2, h1⟩
      have hidx : (loop_body solver s).new_C_indx = build_new_index s.C (p : Int) := by
        rw [loop_body_new_C_indx, loop_body_pos, h1]
      have hlen' : (loop_body solver s).new_C_indx.length = n + 1 := by omega
      have hat : ∀ i < n + 1, ∀ j < n + 1, matAt (loop_body solver s).C i j =
          matAt s.C ((build_new_index s.C (p : Int)).getD i 0)
            ((build_new_index s.C (p : Int)).getD j 0) := by
        intro i hi j hj
        rw [loop_body_C_eq_D, loop_body_D_at solver s i j (by omega) (by omega), hidx]
      have hlt : ∀ i < n + 1, (build_new_index s.C (p : Int)).getD i 0 < s.C.length := by
        intro i hi
        exact build_new_index_lt s.C _ i (by rw [← hidx]; omega)
      have hshape' : ∀ i < (loop_body solver s).C.length,
          matAt (loop_body solver s).C i i = 1 ∨ ConstantVariant (loop_body solver s).C i := by
        intro i hi
        rw [hC'] at hi
        rcases hshape _ (hlt i hi) with h | h
        · left; rw [hat i hi i hi]; exact h
        · right
          intro j hj
          rw [hC'] at hj
          rw [hat i hi j hj, hat j hj i hi]
          exact h _ (hlt j hj)
      have hunit' : ∃ u < (loop_body solver s).C.length, matAt (loop_body solver s).C u u = 1 := by
        have hsurv : ∀ u < s.C.length, u ≠ p → matAt s.C u u = 1 →
            ∃ u' < (loop_body solver s).C.length, matAt (loop_body solver s).C u' u' = 1 := by
          intro u hu hup hu1
          obtain ⟨i, hi, hiu⟩ := build_new_index_pos_surj s.C p hp2 u hu hup
          have hi' : i < n + 1 := by omega
          exact ⟨i, by rw [hC']; exact hi', by rw [hat i hi' i hi', hiu]; exact hu1⟩
        obtain ⟨u, hu, hu1⟩ := hunit
        by_cases hup : u = p
        · by_cases hother : ∃ u' < s.C.length, u' ≠ p ∧ matAt s.C u' u' = 1
          · obtain ⟨u', hu', hne, h1'⟩ := hother
            exact hsurv u' hu' hne h1'
          · exfalso
            push_neg at hother
            have hconst : ∀ i < s.C.length, i ≠ p → ConstantVariant s.C i := by
              intro i hi hip
              rcases hshape i hi with h | h
              · exact absurd h (hother i hi hip)
              · exact h
            have hE := hS s.C p hp2 (by rw [← hup]; exact hu1) hconst
            have hv := vif_isolated (solver s.C) s.C p hE hp2 (by rw [← hup]; exact hu1)
              (fun j hj hjp => ((hconst j hj hjp) p hp2).2)
              (fun i hi hip => ((hconst i hi hip) p hp2).1)
            have hgt := (sbat_VIF_iter_rm_colin_vif solver s.C p (by rw [← hD]; exact h1)).2
            rw [hv] at hgt
            norm_num at hgt
        · exact hsurv u hu hup hu1
      obtain ⟨s', hs', hcount, hfin⟩ := ih (loop_body solver s) hC' rfl hshape' hunit'
      refine ⟨s', ?_, ?_, hfin⟩
      · rw [reduction_loop]; simp only [hpos, if_true]; exact hs'
      · rw [loop_body_count] at hcount; omega
    · have hneg : (loop_body solver s).pos = -1 := by
        rw [loop_body_pos] at hpos ⊢
        rcases sbat_VIF_iter_rm_colin_range solver s.D with h1 | ⟨p, _, h1⟩
        · exact h1
        · rw [h1] at hpos; omega
      refine ⟨loop_body solver s, ?_, ?_, hneg, ?_⟩
      · rw [reduction_loop]; simp only [hpos, if_false]
      · rw [loop_body_count]; omega
      · rw [loop_body_new_C_indx, hneg, build_new_index_neg, List.length_range, hC]; omega

/-! ## The gene driver -/

/-- A gene whose two boundary variants have the same index is skipped. -/
theorem sbat_multi_gene_step_same (lib : Library K) (fuel : Nat) (snp_name : List String)
    (snp_pval snp_beta snp_btse : List K) (g1 g2 : String) (a : Nat)
    (h1 : snp_name_map_find snp_name g1 = some a)
    (h2 : snp_name_map_find snp_name g2 = some a) :
    sbat_multi_gene_step lib fuel snp_name snp_pval snp_beta snp_btse g1 g2 =
      some gene_skipped := by
  simp [sbat_multi_gene_step, h1, h2]

/-- The branch `snp_num_in_gene[i] == 1` of lines 627-630 is never taken: a gene
that is not skipped reaches `sbat_multi_calcu_V`. -/
theorem sbat_multi_gene_step_called (lib : Library K) (fuel : Nat) (snp_name : List String)
    (snp_pval snp_beta snp_btse : List K) (g1 g2 : String) (r : GeneResult K)
    (h : sbat_multi_gene_step lib fuel snp_name snp_pval snp_beta snp_btse g1 g2 = some r) :
    r = gene_skipped ∨ r.calcu_V_called = true := by
  unfold sbat_multi_gene_step at h
  simp only at h
  split at h
  · rename_i i1 i2 _ _
    split at h
    · left; exact (Option.some.inj h).symm
    · rename_i hskip
      have hlt : i1 < i2 := by
        by_contra hge
        apply hskip
        simp [not_lt.mp hge]
      split at h
      · rename_i hone; omega
      · split at h
        · exact absurd h (by simp)
        · right; rw [← Option.some.inj h]
  · left; exact (Option.some.inj h).symm

/-! ## The size caps -/

theorem corr_matrix_length (sqrt : K → K) (X : List (List K)) (m : Nat) :
    (corr_matrix sqrt X m).length = m := matBuild_length _ _ _

/-- With `m + 1` executions allowed, `sbat_multi_calcu_V` answers, whatever the
library. -/
theorem sbat_multi_calcu_V_some (lib : Library K) (fuel : Nat) (snp_indx : List Nat)
    (set_beta set_se : List K) (snp_kept : List String) (hfuel : snp_indx.length + 1 ≤ fuel) :
    ∃ res, sbat_multi_calcu_V lib fuel snp_indx set_beta set_se snp_kept = some res := by
  obtain ⟨s, hs, _⟩ := reduction_loop_fuel lib.solver snp_indx.length
    (reduction_init (corr_matrix lib.sqrt (lib.make_XMat_subset snp_indx) snp_indx.length)
      set_beta set_se snp_kept)
    (corr_matrix_length _ _ _) (corr_matrix_length _ _ _)
  have hs' := reduction_loop_le lib.solver _ fuel hfuel _ _ hs
  simp only [sbat_multi_calcu_V, hs']
  exact ⟨_, rfl⟩

/-- A set with more than 20000 resolved variants is skipped. -/
theorem sbat_multi_set_over_cap (lib : Library K) (fuel : Nat) (snp_name : List String)
    (snp_beta snp_btse : List K) (snpset_i : List String)
    (h : (resolve_snp_indx snp_name snpset_i).length > 20000) :
    sbat_multi_set lib fuel snp_name snp_beta snp_btse snpset_i =
      some { set_pval := 2, snp_num_in_set := 0, num_snp_tested := 0, chisq_o := 0
             calcu_V_called := false } := by
  simp [sbat_multi_set, h]

/-- A non-empty set with at most 20000 resolved variants reaches
`sbat_multi_calcu_V`. -/
theorem sbat_multi_set_within_cap (lib : Library K) (fuel : Nat) (snp_name : List String)
    (snp_beta snp_btse : List K) (snpset_i : List String) (hne : 1 ≤ snpset_i.length)
    (h : (resolve_snp_indx snp_name snpset_i).length ≤ 20000)
    (hfuel : (resolve_snp_indx snp_name snpset_i).length + 1 ≤ fuel) :
    ∃ r, sbat_multi_set lib fuel snp_name snp_beta snp_btse snpset_i = some r ∧
      r.calcu_V_called = true ∧
      r.snp_num_in_set = (resolve_snp_indx snp_name snpset_i).length := by
  obtain ⟨res, hres⟩ := sbat_multi_calcu_V_some lib fuel (resolve_snp_indx snp_name snpset_i)
    (vecBuild (resolve_snp_indx snp_name snpset_i).length
      fun ii => vecAt snp_beta ((resolve_snp_indx snp_name snpset_i).getD ii 0))
    (vecBuild (resolve_snp_indx snp_name snpset_i).length
      fun ii => vecAt snp_btse ((resolve_snp_indx snp_name snpset_i).getD ii 0))
    snp_name hfuel
  have h1 : ¬ snpset_i.length < 1 := by omega
  have h2 : ¬ (resolve_snp_indx snp_name snpset_i).length > 20000 := by omega
  simp only [sbat_multi_set, h1, h2, decide_False, Bool.false_or, Bool.not_false,
    Bool.true_and, Bool.false_eq_true, if_false, hres]
  exact ⟨_, rfl, rfl, rfl⟩

theorem gene_snp_indx_length (i1 i2 : Nat) : (gene_snp_indx i1 i2).length = i2 + 1 - i1 := by
  simp [gene_snp_indx]

/-- A gene whose window holds more than 10000 variants is skipped. -/
theorem sbat_multi_gene_step_over_cap (lib : Library K) (fuel : Nat) (snp_name : List String)
    (snp_pval snp_beta snp_btse : List K) (g1 g2 : String) (a b : Nat)
    (h1 : snp_name_map_find snp_name g1 = some a)
    (h2 : snp_name_map_find snp_name g2 = some b)
    (h : (b : Int) - (a : Int) + 1 > 10000) :
    sbat_multi_gene_step lib fuel snp_name snp_pval snp_beta snp_btse g1 g2 =
      some gene_skipped := by
  simp [sbat_multi_gene_step, h1, h2, h]

/-- A gene whose window holds between 2 and 10000 variants reaches
`sbat_multi_calcu_V`. -/
theorem sbat_multi_gene_step_within_cap (lib : Library K) (fuel : Nat) (snp_name : List String)
    (snp_pval snp_beta snp_btse : List K) (g1 g2 : String) (a b : Nat)
    (h1 : snp_name_map_find snp_name g1 = some a)
    (h2 : snp_name_map_find snp_name g2 = some b)
    (hlt : a < b) (h : (b : Int) - (a : Int) + 1 ≤ 10000) (hfuel : b + 2 - a ≤ fuel) :
    ∃ r, sbat_multi_gene_step lib fuel snp_name snp_pval snp_beta snp_btse g1 g2 = some r ∧
      r.calcu_V_called = true ∧ r.snp_num_in_gene = (b : Int) - (a : Int) + 1 := by
  have hfuel' : (gene_snp_indx a b).length + 1 ≤ fuel := by
    rw [gene_snp_indx_length]; omega
  obtain ⟨res, hres⟩ := sbat_multi_calcu_V_some lib fuel (gene_snp_indx a b)
    (vecBuild ((b : Int) - (a : Int) + 1).toNat
      fun ii => vecAt snp_beta ((gene_snp_indx a b).getD ii 0))
    (vecBuild ((b : Int) - (a : Int) + 1).toNat
      fun ii => vecAt snp_btse ((gene_snp_indx a b).getD ii 0))
    (vecBuild ((b : Int) - (a : Int) + 1).toNat
      fun ii => snp_name.getD ((gene_snp_indx a b).getD ii 0) "")
    hfuel'
  have h3 : ¬ a ≥ b := by omega
  have h4 : ¬ ((b : Int) - (a : Int) + 1 > 10000) := by omega
  have h5 : ¬ ((b : Int) - (a : Int) + 1 = 1) := by omega
  simp only [sbat_multi_gene_step, h1, h2, h3, h4, h5, decide_False, Bool.false_or,
    Bool.not_false, Bool.true_and, Bool.false_eq_true, if_false, hres]
  exact ⟨_, rfl, rfl, rfl⟩

/-- In the name list `x, .., x, y` (`n` times `x`), `y ≠ x` is found at index `n`. -/
theorem snp_name_map_find_last (n : Nat) (x y : String) (hxy : x ≠ y) :
    snp_name_map_find (List.replicate n x ++ [y]) y = some n := by
  unfold snp_name_map_find List.indexOf?
  rw [List.findIdx?_append, List.findIdx?_replicate]
  have : (x == y) = false := by simpa using hxy
  simp [this]

/-- In the name list `x, .., x, y` (`n ≥ 1` times `x`), `x` is found at index 0. -/
theorem snp_name_map_find_first (n : Nat) (x y : String) (hn : 0 < n) :
    snp_name_map_find (List.replicate n x ++ [y]) x = some 0 := by
  unfold snp_name_map_find List.indexOf?
  rw [List.findIdx?_append, List.findIdx?_replicate]
  simp [hn]

/-- A set that repeats `m` times a name found at index `i` resolves to `m`
indices. -/
theorem resolve_snp_indx_replicate (snp_name : List String) (x : String) (i m : Nat)
    (h : snp_name_map_find snp_name x = some i) :
    (resolve_snp_indx snp_name (List.replicate m x)).length = m := by
  unfold resolve_snp_indx
  rw [List.filterMap_replicate, h]
  simp

/-! ## The rebuild step deletes one row, one column and one entry -/

/-- Reading a list through the new index of a removal at `p` deletes entry `p`
and keeps the other entries in their order. -/
theorem vecBuild_new_index_pos {α β : Type} (C : List (List K)) (l : List α) (d : α)
    (g : α → β) (p : Nat) (hl : l.length = C.length) (hp : p < C.length) :
    vecBuild (C.length - 1) (fun i => g (l.getD ((build_new_index C (p : Int)).getD i 0) d)) =
      (l.eraseIdx p).map g := by
  have hlen : (l.eraseIdx p).length = C.length - 1 := by
    rw [List.length_eraseIdx, if_pos (by omega), hl]
  apply List.ext_getElem
  · simp [vecBuild, hlen]
  · intro i h1 h2
    have hi : i < C.length - 1 := by simpa [vecBuild] using h1
    simp only [vecBuild, List.getElem_map, List.getElem_range]
    rw [build_new_index_pos_getD C p hp i hi, List.getElem_eraseIdx]
    by_cases h : i < p
    · rw [if_pos h, dif_pos h, List.getD_eq_getElem _ _ (by omega)]
    · rw [if_neg h, dif_neg h, List.getD_eq_getElem _ _ (by omega)]

/-- Reading a list through the new index when nothing is removed gives the list
back. -/
theorem vecBuild_new_index_neg {α : Type} (C : List (List K)) (l : List α) (d : α)
    (hl : l.length = C.length) :
    vecBuild C.length (fun i => l.getD ((build_new_index C (-1)).getD i 0) d) = l := by
  apply List.ext_getElem
  · simp [vecBuild, hl]
  · intro i h1 h2
    have hi : i < C.length := by simpa [vecBuild] using h1
    simp only [vecBuild, List.getElem_map, List.getElem_range]
    rw [build_new_index_neg_getD C i hi, List.getD_eq_getElem _ _ h2]

/-- The body of the loop when the reducer returns the index `p` of a square
matrix `C`: row `p` and column `p` of `C`, and entry `p` of the vectors, are
deleted. -/
theorem loop_body_removal (solver : List (List K) → SelfAdjointEigenSolver K)
    (s : Reduction K) (p : Nat) (hsq : ∀ row ∈ s.C, row.length = s.C.length)
    (hb : s.snp_beta.length = s.C.length) (hs : s.snp_btse.length = s.C.length)
    (hpos : (loop_body solver s).pos = (p : Int)) (hp : p < s.C.length) :
    (loop_body solver s).D = (s.C.eraseIdx p).map (fun row => row.eraseIdx p) ∧
    (loop_body solver s).snp_beta = s.snp_beta.eraseIdx p ∧
    (loop_body solver s).snp_btse = s.snp_btse.eraseIdx p := by
  have hidx : (loop_body solver s).new_C_indx = build_new_index s.C (p : Int) := by
    rw [loop_body_new_C_indx, hpos]
  have hlen : (build_new_index s.C (p : Int)).length = s.C.length - 1 :=
    build_new_index_pos_length s.C p hp
  rw [loop_body_pos] at hpos
  refine ⟨?_, ?_, ?_⟩
  · simp only [loop_body, hpos, hlen]
    have hrow : ∀ i < s.C.length - 1,
        (List.range (s.C.length - 1)).map (fun j =>
          matAt s.C ((build_new_index s.C (p : Int)).getD i 0)
            ((build_new_index s.C (p : Int)).getD j 0)) =
        (s.C.getD ((build_new_index s.C (p : Int)).getD i 0) []).eraseIdx p := by
      intro i hi
      have hlt : (build_new_index s.C (p : Int)).getD i 0 < s.C.length :=
        build_new_index_lt s.C _ i (by rw [hlen]; exact hi)
      have hrl : (s.C.getD ((build_new_index s.C (p : Int)).getD i 0) []).length =
          s.C.length := by
        apply hsq
        rw [List.getD_eq_getElem _ _ hlt]
        exact List.getElem_mem hlt
      have := vecBuild_new_index_pos s.C
        (s.C.getD ((build_new_index s.C (p : Int)).getD i 0) []) (0 : K) id p hrl hp
      simpa [vecBuild, matAt] using this
    have hmat : matBuild (s.C.length - 1) (s.C.length - 1) (fun i j =>
          matAt s.C ((build_new_index s.C (p : Int)).getD i 0)
            ((build_new_index s.C (p : Int)).getD j 0)) =
        vecBuild (s.C.length - 1) (fun i =>
          (s.C.getD ((build_new_index s.C (p : Int)).getD i 0) []).eraseIdx p) := by
      unfold matBuild vecBuild
      apply List.map_congr_left
      intro i hi
      exact hrow i (List.mem_range.mp hi)
    rw [hmat]
    exact vecBuild_new_index_pos s.C s.C [] (fun row => row.eraseIdx p) p rfl hp
  · simp only [loop_body, hpos, hlen]
    have := vecBuild_new_index_pos s.C s.snp_beta (0 : K) id p hb hp
    simpa [vecAt] using this
  · simp only [loop_body, hpos, hlen]
    have := vecBuild_new_index_pos s.C s.snp_btse (0 : K) id p hs hp
    simpa [vecAt] using this

/-- The body of the loop when the reducer returns `-1` on a square matrix `C`:
the matrix and the vectors are unchanged. -/
theorem loop_body_no_removal (solver : List (List K) → SelfAdjointEigenSolver K)
    (s : Reduction K) (hsq : ∀ row ∈ s.C, row.length = s.C.length)
    (hb : s.snp_beta.length = s.C.length) (hs : s.snp_btse.length = s.C.length)
    (hpos : (loop_body solver s).pos = -1) :
    (loop_body solver s).D = s.C ∧
    (loop_body solver s).snp_beta = s.snp_beta ∧
    (loop_body solver s).snp_btse = s.snp_btse := by
  have hlen : (build_new_index s.C (-1)).length = s.C.length := by
    rw [build_new_index_neg, List.length_range]
  rw [loop_body_pos] at hpos
  refine ⟨?_, ?_, ?_⟩
  · simp only [loop_body, hpos, hlen]
    have hrow : ∀ i < s.C.length,
        (List.range s.C.length).map (fun j =>
          matAt s.C ((build_new_index s.C (-1)).getD i 0)
            ((build_new_index s.C (-1)).getD j 0)) =
        s.C.getD ((build_new_index s.C (-1)).getD i 0) [] := by
      intro i hi
      have hlt : (build_new_index s.C (-1)).getD i 0 < s.C.length := by
        rw [build_new_index_neg_getD s.C i hi]; exact hi
      have hrl : (s.C.getD ((build_new_index s.C (-1)).getD i 0) []).length = s.C.length := by
        apply hsq
        rw [List.getD_eq_getElem _ _ hlt]
        exact List.getElem_mem hlt
      have := vecBuild_new_index_neg s.C
        (s.C.getD ((build_new_index s.C (-1)).getD i 0) []) (0 : K) hrl
      simpa [vecBuild, matAt] using this
    have hmat : matBuild s.C.length s.C.length (fun i j =>
          matAt s.C ((build_new_index s.C (-1)).getD i 0)
            ((build_new_index s.C (-1)).getD j 0)) =
        vecBuild s.C.length (fun i => s.C.getD ((build_new_index s.C (-1)).getD i 0) []) := by
      unfold matBuild vecBuild
      apply List.map_congr_left
      intro i hi
      exact hrow i (List.mem_range.mp hi)
    rw [hmat]
    exact vecBuild_new_index_neg s.C s.C [] rfl
  · simp only [loop_body, hpos, hlen]
    have := vecBuild_new_index_neg s.C s.snp_beta (0 : K) hb
    simpa [vecAt] using this
  · simp only [loop_body, hpos, hlen]
    have := vecBuild_new_index_neg s.C s.snp_btse (0 : K) hs
    simpa [vecAt] using this

/-- With the diagonal solver, the constant second variant of the matrix
`((1, 0), (0, 0))` is the one removed. -/
theorem sbat_VIF_iter_rm_colin_constant_second :
    sbat_VIF_iter_rm_colin diagonal_solver ([[1, 0], [0, 0]] : List (List ℚ)) = 1 := by
  have hlen : ([[1, 0], [0, 0]] : List (List ℚ)).length = 2 := rfl
  have hE : IsEigendecomposition ([[1, 0], [0, 0]] : List (List ℚ))
      (diagonal_solver [[1, 0], [0, 0]]) :=
    exactOnSingle_diagonal_solver _ 0 (by decide) rfl (by
      intro i hi hi0 j hj
      rw [hlen] at hi hj
      interval_cases i
      · exact absurd rfl hi0
      · interval_cases j <;> exact ⟨rfl, rfl⟩)
  have h0 : vif (diagonal_solver [[1, 0], [0, 0]]) ([[1, 0], [0, 0]] : List (List ℚ)) 0 = 1 := by
    apply vif_isolated _ _ 0 hE (by decide) rfl
    · intro j hj hj0
      rw [hlen] at hj
      interval_cases j
      · exact absurd rfl hj0
      · rfl
    · intro i hi hi0
      rw [hlen] at hi
      interval_cases i
      · exact absurd rfl hi0
      · rfl
  have h1 : vif (diagonal_solver [[1, 0], [0, 0]]) ([[1, 0], [0, 0]] : List (List ℚ)) 1 =
      100000000 := by
    have hQ : Q_diag (diagonal_solver [[1, 0], [0, 0]]) ([[1, 0], [0, 0]] : List (List ℚ)) 1
        = 0 := by
      simp [Q_diag, Finset.sum_range_succ, matAt]
    have hmax : max_rsq_buf ([[1, 0], [0, 0]] : List (List ℚ)) 1 = 0 := by
      simp only [max_rsq_buf, max_pos_buf, hlen, maxCoeff_two]
      split <;> simp [R_sq, matAt]
    have hm : multi_rsq (diagonal_solver [[1, 0], [0, 0]]) ([[1, 0], [0, 0]] : List (List ℚ)) 1
        = 1 := by
      simp only [multi_rsq, multi_rsq_buf, hQ, hmax]
      norm_num
    simp only [vif, hm]
    norm_num
  simp only [sbat_VIF_iter_rm_colin, hlen]
  rw [vif_select_succ, vif_select_one, h0, h1]
  norm_num

/-! ## The pairwise override -/

/-- The pairwise maximum of column `j` is at least every squared off-diagonal
entry of the column. -/
theorem le_max_rsq_buf (R : List (List K)) (i j : Nat) (hi : i < R.length) :
    R_sq R i j ≤ max_rsq_buf R j := by
  obtain ⟨n, hn⟩ : ∃ n, R.length = n + 1 := ⟨R.length - 1, by omega⟩
  unfold max_rsq_buf max_pos_buf
  rw [hn]
  exact maxCoeff_max (fun i => R_sq R i j) n i (by omega)

/-- With entries in `[-1, 1]` the pairwise maximum of a column is at most 1. -/
theorem max_rsq_buf_le_one (R : List (List K)) (j : Nat) (hj : j < R.length)
    (hbound : ∀ i < R.length, ∀ j < R.length, -1 ≤ matAt R i j ∧ matAt R i j ≤ 1) :
    max_rsq_buf R j ≤ 1 := by
  obtain ⟨n, hn⟩ : ∃ n, R.length = n + 1 := ⟨R.length - 1, by omega⟩
  have hlt : max_pos_buf R j < R.length := by
    unfold max_pos_buf; rw [hn]; exact maxCoeff_lt _ n
  unfold max_rsq_buf R_sq
  split
  · norm_num
  · have h := hbound _ hlt j hj
    nlinarith [h.1, h.2]

/-- An off-diagonal entry whose square exceeds 0.9 forces a removal, whatever
the solver answers. -/
theorem sbat_VIF_iter_rm_colin_pairwise (solver : List (List K) → SelfAdjointEigenSolver K)
    (R : List (List K))
    (hbound : ∀ i < R.length, ∀ j < R.length, -1 ≤ matAt R i j ∧ matAt R i j ≤ 1)
    (i j : Nat) (hi : i < R.length) (hj : j < R.length) (hij : i ≠ j)
    (h : 9 / 10 < matAt R i j * matAt R i j) :
    ∃ p : Nat, p < R.length ∧ sbat_VIF_iter_rm_colin solver R = (p : Int) := by
  have hsq : R_sq R i j = matAt R i j * matAt R i j := by
    unfold R_sq; rw [if_neg hij]
  have h1 : 9 / 10 < max_rsq_buf R j := by
    have := le_max_rsq_buf R i j hi
    rw [hsq] at this
    exact lt_of_lt_of_le h this
  have h2 := max_rsq_buf_le_multi_rsq (solver R) R j
  have h3 := multi_rsq_le_one (solver R) R j (max_rsq_buf_le_one R j hj hbound)
  exact sbat_VIF_iter_rm_colin_removes solver R j hj
    (vif_gt_ten (solver R) R j (lt_of_lt_of_le h1 h2) h3)

/-- The matrix on which the loop stops has every squared off-diagonal entry at
most 0.9 when the entries of the starting matrix are in `[-1, 1]`. -/
theorem reduction_loop_stops_pairwise (solver : List (List K) → SelfAdjointEigenSolver K) :
    ∀ (fuel : Nat) (s r : Reduction K), s.D = s.C →
      (∀ i < s.C.length, ∀ j < s.C.length, -1 ≤ matAt s.C i j ∧ matAt s.C i j ≤ 1) →
      reduction_loop solver fuel s = some r →
      ∀ i < r.D.length, ∀ j < r.D.length, i ≠ j → matAt r.D i j * matAt r.D i j ≤ 9 / 10 := by
  intro fuel
  induction fuel with
  | zero => intro s r _ _ h; simp [reduction_loop] at h
  | succ n ih =>
    intro s r hD hbound h
    rw [reduction_loop] at h
    by_cases hpos : (loop_body solver s).pos > -1
    · simp only [hpos, if_true] at h
      apply ih (loop_body solver s) r rfl _ h
      intro i hi j hj
      rw [loop_body_C_eq_D, loop_body_D_length] at hi hj
      rw [loop_body_C_eq_D, loop_body_D_at solver s i j hi hj]
      rw [loop_body_new_C_indx] at hi hj ⊢
      exact hbound _ (build_new_index_lt s.C _ i hi) _ (build_new_index_lt s.C _ j hj)
    · simp only [hpos, if_false] at h
      have hr : r = loop_body solver s := (Option.some.inj h).symm
      have hneg : sbat_VIF_iter_rm_colin solver s.D = -1 := by
        rw [loop_body_pos] at hpos
        rcases sbat_VIF_iter_rm_colin_range solver s.D with h1 | ⟨p, _, h1⟩
        · exact h1
        · rw [h1] at hpos; omega
      have hidx : (loop_body solver s).new_C_indx = List.range s.C.length := by
        rw [loop_body_new_C_indx, loop_body_pos, hneg, build_new_index_neg]
      intro i hi j hj hij
      rw [hr] at hi hj ⊢
      rw [loop_body_D_length, hidx, List.length_range] at hi hj
      have hi' : i < (loop_body solver s).new_C_indx.length := by
        rw [hidx, List.length_range]; exact hi
      have hj' : j < (loop_body solver s).new_C_indx.length := by
        rw [hidx, List.length_range]; exact hj
      rw [loop_body_D_at solver s i j hi' hj', hidx]
      have ei : (List.range s.C.length).getD i 0 = i := by
        simp [List.getD_eq_getElem?_getD, hi]
      have ej : (List.range s.C.length).getD j 0 = j := by
        simp [List.getD_eq_getElem?_getD, hj]
      rw [ei, ej]
      by_contra hgt
      obtain ⟨p, _, hp⟩ := sbat_VIF_iter_rm_colin_pairwise solver s.C hbound i j hi hj hij
        (not_le.mp hgt)
      rw [hD, hp] at hneg
      omega

/-! ## The claims -/

/-- C1: `sbat_VIF_iter_rm_colin` returns `-1` exactly when no computed VIF value
is strictly greater than 10; otherwise it returns an index `pos` whose VIF is
greater than 10, is the largest VIF value, and is the smallest index that
attains this largest value. -/
theorem sbat_VIF_iter_rm_colin_selects (solver : List (List K) → SelfAdjointEigenSolver K)
    (R : List (List K)) :
    (sbat_VIF_iter_rm_colin solver R = -1 ↔ ∀ j < R.length, ¬ vif (solver R) R j > 10) ∧
    (sbat_VIF_iter_rm_colin solver R ≠ -1 →
      ∃ pos : Nat, sbat_VIF_iter_rm_colin solver R = (pos : Int) ∧ pos < R.length ∧
        vif (solver R) R pos > 10 ∧
        (∀ k < R.length, vif (solver R) R k ≤ vif (solver R) R pos) ∧
        ∀ k < R.length, vif (solver R) R k = vif (solver R) R pos → pos ≤ k) := by
  have key := vif_select_spec (fun j => vif (solver R) R j) R.length
  simp only [sbat_VIF_iter_rm_colin]
  rcases key with ⟨h2, _, hall⟩ | ⟨p, hp, h2, _, hgt, hmax, hfirst⟩
  · refine ⟨⟨fun _ j hj => not_lt.mpr (hall j hj), fun _ => h2⟩, fun h => absurd h2 h⟩
  · refine ⟨⟨fun h => ?_, fun h => absurd hgt (h p hp)⟩, fun _ => ?_⟩
    · rw [h2] at h; omega
    · refine ⟨p, h2, hp, hgt, hmax, ?_⟩
      intro k _ hk
      by_contra hlt
      exact absurd hk (ne_of_lt (hfirst k (not_le.mp hlt)))

/-- C2 (amended): for a matrix in which every variant has diagonal entry 1 or is
constant (zero row and column) and at least one variant has diagonal entry 1,
with a solver that is exact on the matrices with a single non-constant variant,
the reduction loop stops within `n` executions of its body, `n` the dimension of
the matrix, and keeps at least one variant. -/
theorem reduction_loop_terminates (solver : List (List K) → SelfAdjointEigenSolver K)
    (C : List (List K)) (set_beta set_se : List K) (snp_kept : List String)
    (hshape : ∀ i < C.length, matAt C i i = 1 ∨ ConstantVariant C i)
    (hunit : ∃ u < C.length, matAt C u u = 1) (hS : ExactOnSingle solver) :
    ∃ s, reduction_loop solver C.length (reduction_init C set_beta set_se snp_kept) = some s ∧
      s.count ≤ C.length ∧ s.pos = -1 ∧ 1 ≤ s.new_C_indx.length := by
  obtain ⟨n, hn⟩ : ∃ n, C.length = n + 1 := by
    obtain ⟨u, hu, _⟩ := hunit
    exact ⟨C.length - 1, by omega⟩
  obtain ⟨s, hs, hc, hpos, hkeep⟩ := reduction_loop_fuel_shape solver hS n
    (reduction_init C set_beta set_se snp_kept) hn rfl hshape hunit
  rw [hn]
  exact ⟨s, hs, by simpa [reduction_init] using hc, hpos, hkeep⟩

/-- Witness for C2: one variant of diagonal entry 1 and one constant variant,
with the diagonal solver. -/
theorem reduction_loop_terminates_witness :
    ((∀ i < ([[1, 0], [0, 0]] : List (List ℚ)).length,
        matAt ([[1, 0], [0, 0]] : List (List ℚ)) i i = 1 ∨
          ConstantVariant ([[1, 0], [0, 0]] : List (List ℚ)) i) ∧
      (∃ u < ([[1, 0], [0, 0]] : List (List ℚ)).length,
        matAt ([[1, 0], [0, 0]] : List (List ℚ)) u u = 1) ∧
      ExactOnSingle (diagonal_solver : List (List ℚ) → SelfAdjointEigenSolver ℚ)) ∧
    ∃ s, reduction_loop diagonal_solver 2
        (reduction_init ([[1, 0], [0, 0]] : List (List ℚ)) [2, 0] [1, 1] ["rs1", "rs2"]) = some s ∧
      s.count ≤ 2 ∧ s.pos = -1 ∧ 1 ≤ s.new_C_indx.length := by
  have hshape : ∀ i < ([[1, 0], [0, 0]] : List (List ℚ)).length,
      matAt ([[1, 0], [0, 0]] : List (List ℚ)) i i = 1 ∨
        ConstantVariant ([[1, 0], [0, 0]] : List (List ℚ)) i := by
    intro i hi
    simp only [List.length_cons, List.length_nil] at hi
    interval_cases i
    · left; rfl
    · right
      intro j hj
      simp only [List.length_cons, List.length_nil] at hj
      interval_cases j <;> exact ⟨rfl, rfl⟩
  have hunit : ∃ u < ([[1, 0], [0, 0]] : List (List ℚ)).length,
      matAt ([[1, 0], [0, 0]] : List (List ℚ)) u u = 1 := ⟨0, by decide, rfl⟩
  exact ⟨⟨hshape, hunit, exactOnSingle_diagonal_solver⟩,
    reduction_loop_terminates diagonal_solver [[1, 0], [0, 0]] [2, 0] [1, 1] ["rs1", "rs2"]
      hshape hunit exactOnSingle_diagonal_solver⟩

/-- Counterexample to C2: a single constant-genotype variant gives the 1-by-1
zero matrix; with its exact decomposition the loop is still running after one
execution of its body and stops after the second. -/
theorem reduction_loop_zero_matrix :
    (∀ sqrt : ℚ → ℚ, corr_matrix sqrt [[0]] 1 = [[0]]) ∧
    IsEigendecomposition ([[0]] : List (List ℚ)) ⟨[0], [[1]]⟩ ∧
    reduction_loop (fun _ : List (List ℚ) => ⟨[0], [[1]]⟩) 1
      (reduction_init [[0]] [1] [1] ["rs1"]) = none ∧
    (reduction_loop (fun _ : List (List ℚ) => ⟨[0], [[1]]⟩) 2
      (reduction_init [[0]] [1] [1] ["rs1"])).map (fun s => s.count) = some 2 := by
  have hvif : sbat_VIF_iter_rm_colin (fun _ => ⟨[0], [[1]]⟩) ([[0]] : List (List ℚ)) = 0 := by
    norm_num [sbat_VIF_iter_rm_colin, vif_select, vif, multi_rsq, multi_rsq_buf, max_rsq_buf,
      max_pos_buf, maxCoeff, R_sq, Q_diag, R_i, d_i, matAt, vecAt, List.range_succ]
  have hvif0 : sbat_VIF_iter_rm_colin (fun _ => ⟨[0], [[1]]⟩) ([] : List (List ℚ)) = -1 := by
    simp [sbat_VIF_iter_rm_colin, vif_select]
  refine ⟨?_, by simp [IsEigendecomposition, matAt, vecAt], ?_, ?_⟩
  · intro sqrt
    simp [corr_matrix, matBuild, corr_entry, sumsq_x, matAt, List.range_succ]
  · simp [reduction_loop, loop_body, reduction_init, hvif]
  · have hstep : loop_body (fun _ : List (List ℚ) => ⟨[0], [[1]]⟩)
        (reduction_init [[0]] [1] [1] ["rs1"]) =
        { C := [], D := [], snp_beta := [], snp_btse := [], snp_keep := [], new_C_indx := []
          pos := 0, count := 1 } := by
      simp [loop_body, reduction_init, hvif, build_new_index, matBuild, vecBuild,
        List.range_succ]
    simp [reduction_loop, hstep]
    simp [loop_body, hvif0]

/-- C3 (amended): on a 1-by-1 matrix `(r)` that the eigen-solver decomposes
exactly, `sbat_VIF_iter_rm_colin` returns `-1` if and only if `r ≥ 0.1`. -/
theorem sbat_VIF_iter_rm_colin_one_by_one (solver : List (List K) → SelfAdjointEigenSolver K)
    (R : List (List K)) (hR : R.length = 1) (hE : IsEigendecomposition R (solver R)) :
    sbat_VIF_iter_rm_colin solver R = -1 ↔ 1 / 10 ≤ matAt R 0 0 :=
  vif_one_by_one solver R hR hE

/-- Witness for C3: the unit matrix `(1)` with eigenvalue 1 and eigenvector `(1)`. -/
theorem sbat_VIF_iter_rm_colin_one_by_one_witness :
    ([[1]] : List (List ℚ)).length = 1 ∧
    IsEigendecomposition ([[1]] : List (List ℚ)) ⟨[1], [[1]]⟩ ∧
    (sbat_VIF_iter_rm_colin (fun _ => ⟨[1], [[1]]⟩) ([[1]] : List (List ℚ)) = -1 ↔
      (1 : ℚ) / 10 ≤ matAt [[1]] 0 0) :=
  ⟨rfl, by simp [IsEigendecomposition, matAt, vecAt],
    sbat_VIF_iter_rm_colin_one_by_one (fun _ => ⟨[1], [[1]]⟩) [[1]] rfl
      (by simp [IsEigendecomposition, matAt, vecAt])⟩

/-- Counterexample to C3: the 1-by-1 zero matrix of a constant-genotype variant,
with its exact decomposition (eigenvalue 0, eigenvector `(1)`), gets index 0. -/
theorem sbat_VIF_iter_rm_colin_one_by_one_zero :
    IsEigendecomposition ([[0]] : List (List ℚ)) ⟨[0], [[1]]⟩ ∧
    sbat_VIF_iter_rm_colin (fun _ => ⟨[0], [[1]]⟩) ([[0]] : List (List ℚ)) = 0 := by
  refine ⟨by simp [IsEigendecomposition, matAt, vecAt], ?_⟩
  norm_num [sbat_VIF_iter_rm_colin, vif_select, vif, multi_rsq, multi_rsq_buf, max_rsq_buf,
    max_pos_buf, maxCoeff, R_sq, Q_diag, R_i, d_i, matAt, vecAt, List.range_succ]

/-- C4: when the correlation matrix built for a set of `n` variants is the
identity, every `se_i` is non-zero, the eigen-solver is exact on the identity and
`inverse` is exact on `V`, `sbat_multi_calcu_V` stops after one execution of the
loop body (any `fuel ≥ 1` is enough) with no variant removed (`snp_count = n`),
`Vscore` is the sum of `(beta_i / se_i)^2` and the p-value is
`pchisq(Vscore, n)`. -/
theorem sbat_multi_calcu_V_identity (lib : Library K) (fuel : Nat) (snp_indx : List Nat)
    (set_beta set_se : List K) (snp_kept : List String) (hfuel : 1 ≤ fuel)
    (hb : set_beta.length = snp_indx.length) (hs : set_se.length = snp_indx.length)
    (hse : ∀ i < snp_indx.length, vecAt set_se i ≠ 0)
    (hC : corr_matrix lib.sqrt (lib.make_XMat_subset snp_indx) snp_indx.length =
      identity_matrix snp_indx.length)
    (hE : IsEigendecomposition (identity_matrix snp_indx.length)
      (lib.solver (identity_matrix snp_indx.length)))
    (hI : IsInverse (V_matrix set_se (identity_matrix snp_indx.length))
      (lib.inverse (V_matrix set_se (identity_matrix snp_indx.length)))) :
    sbat_multi_calcu_V lib fuel snp_indx set_beta set_se snp_kept =
      some { Vscore := ∑ i in Finset.range snp_indx.length, (vecAt set_beta i / vecAt set_se i) ^ 2
             Vscore_p := lib.pchisq
               (∑ i in Finset.range snp_indx.length, (vecAt set_beta i / vecAt set_se i) ^ 2)
               (snp_indx.length : K)
             snp_count := snp_indx.length } := by
  have hloop := reduction_loop_le lib.solver 1 fuel hfuel _ _
    (reduction_loop_identity lib.solver snp_indx.length set_beta set_se snp_kept hb hs hE)
  have hq := quadratic_form_identity set_beta set_se
    (lib.inverse (V_matrix set_se (identity_matrix snp_indx.length)))
    (by rw [hb, hs]) (by rw [hs]; exact hse) (by rw [hs]; exact hI)
  rw [hs] at hq
  simp only [sbat_multi_calcu_V, hC, hloop, hq, List.length_range, hb]

/-- Witness for C4: three uncorrelated variants, `beta = (2, 0, 0)` and
`se = (1, 1, 1)`, give `Vscore = 4` and `snp_count = 3` (the p-value is
`pchisq 4 3`; here `pchisq` is a stand-in that answers 0). -/
theorem sbat_multi_calcu_V_identity_witness :
    (corr_matrix Real.sqrt ([[1, 0, 0], [0, 1, 0], [0, 0, 1]] : List (List ℝ)) 3 =
        identity_matrix 3 ∧
      IsEigendecomposition (identity_matrix 3 : List (List ℝ)) ⟨[1, 1, 1], identity_matrix 3⟩ ∧
      IsInverse (V_matrix ([1, 1, 1] : List ℝ) (identity_matrix 3)) (identity_matrix 3)) ∧
    sbat_multi_calcu_V
      ({ solver := fun _ => ⟨[1, 1, 1], identity_matrix 3⟩
         inverse := fun _ => identity_matrix 3
         sqrt := Real.sqrt
         pchisq := fun _ _ => 0
         make_XMat_subset := fun _ => [[1, 0, 0], [0, 1, 0], [0, 0, 1]] } : Library ℝ)
      1 [0, 1, 2] [2, 0, 0] [1, 1, 1] ["rs1", "rs2", "rs3"] =
      some { Vscore := 4, Vscore_p := 0, snp_count := 3 } := by
  have hC : corr_matrix Real.sqrt ([[1, 0, 0], [0, 1, 0], [0, 0, 1]] : List (List ℝ)) 3 =
      identity_matrix 3 := by
    simp [corr_matrix, identity_matrix, matBuild, corr_entry, sumsq_x, matAt, List.range_succ,
      Finset.sum_range_succ]
  have hE : IsEigendecomposition (identity_matrix 3 : List (List ℝ))
      ⟨[1, 1, 1], identity_matrix 3⟩ := by
    unfold IsEigendecomposition
    rw [identity_matrix_length]
    refine ⟨?_, ?_, ?_⟩ <;> intro i hi j hj <;> interval_cases i <;> interval_cases j <;>
      simp [identity_matrix, matBuild, matAt, vecAt, List.range_succ, Finset.sum_range_succ]
  have hI : IsInverse (V_matrix ([1, 1, 1] : List ℝ) (identity_matrix 3))
      (identity_matrix 3) := by
    unfold IsInverse
    rw [V_matrix_length]
    refine ⟨?_, ?_⟩ <;> intro i hi j hj <;>
      simp only [List.length_cons, List.length_nil] at hi hj <;>
      interval_cases i <;> interval_cases j <;>
      simp [V_matrix, identity_matrix, matBuild, matAt, vecAt, List.range_succ,
        Finset.sum_range_succ]
  refine ⟨⟨hC, hE, hI⟩, ?_⟩
  have h := sbat_multi_calcu_V_identity
    ({ solver := fun _ => ⟨[1, 1, 1], identity_matrix 3⟩
       inverse := fun _ => identity_matrix 3
       sqrt := Real.sqrt
       pchisq := fun _ _ => 0
       make_XMat_subset := fun _ => [[1, 0, 0], [0, 1, 0], [0, 0, 1]] } : Library ℝ)
    1 [0, 1, 2] [2, 0, 0] [1, 1, 1] ["rs1", "rs2", "rs3"] (le_refl 1) rfl rfl
    (by
      intro i hi
      simp only [List.length_cons, List.length_nil] at hi
      interval_cases i <;> simp [vecAt])
    hC hE hI
  rw [h]
  simp [Finset.sum_range_succ, vecAt]
  norm_num

/-- C5: for the 2-by-2 correlation matrix with unit diagonal and off-diagonal
entry `r`, `0.9 < r^2 ≤ 1`, and a solver that is exact on the matrix `(1)`: the
first call of `sbat_VIF_iter_rm_colin` returns 0 or 1, the second call, on the
remaining matrix `(1)`, returns `-1`, the loop stops after two executions of its
body with one index kept, and `sbat_multi_calcu_V` (any `fuel ≥ 2` is enough)
reports `snp_count = 1`. -/
theorem sbat_multi_calcu_V_near_duplicate (lib : Library K) (fuel : Nat) (r : K)
    (snp_indx : List Nat) (set_beta set_se : List K) (snp_kept : List String) (hfuel : 2 ≤ fuel)
    (hr1 : 9 / 10 < r * r) (hr2 : r * r ≤ 1) (hS : ExactOnUnit lib.solver) :
    (sbat_VIF_iter_rm_colin lib.solver [[1, r], [r, 1]] = 0 ∨
      sbat_VIF_iter_rm_colin lib.solver [[1, r], [r, 1]] = 1) ∧
    (loop_body lib.solver (reduction_init [[1, r], [r, 1]] set_beta set_se snp_kept)).D
      = [[1]] ∧
    sbat_VIF_iter_rm_colin lib.solver [[1]] = -1 ∧
    (∃ s, reduction_loop lib.solver 2 (reduction_init [[1, r], [r, 1]] set_beta set_se snp_kept)
      = some s ∧ s.count = 2 ∧ s.new_C_indx.length = 1) ∧
    (corr_matrix lib.sqrt (lib.make_XMat_subset snp_indx) snp_indx.length = [[1, r], [r, 1]] →
      ∃ res, sbat_multi_calcu_V lib fuel snp_indx set_beta set_se snp_kept = some res ∧
        res.snp_count = 1) := by
  obtain ⟨hD, hsecond, s, hs, hcount, _, hlen, _, _⟩ :=
    reduction_loop_pair lib.solver r set_beta set_se snp_kept hr1 hr2 hS
  refine ⟨sbat_VIF_iter_rm_colin_pair lib.solver r hr1 hr2, hD, hsecond,
    ⟨s, hs, hcount, hlen⟩, ?_⟩
  intro hC
  have hs' := reduction_loop_le lib.solver 2 fuel hfuel _ _ hs
  simp only [sbat_multi_calcu_V, hC, hs']
  exact ⟨_, rfl, hlen⟩

/-- Witness for C5: two identical genotype columns, `r = 1` (`pchisq` is a
stand-in that answers 0). -/
theorem sbat_multi_calcu_V_near_duplicate_witness :
    ((9 : ℝ) / 10 < 1 * 1 ∧ (1 : ℝ) * 1 ≤ 1 ∧
      ExactOnUnit (fun _ : List (List ℝ) => ⟨[1], [[1]]⟩) ∧
      corr_matrix Real.sqrt ([[1, 1]] : List (List ℝ)) 2 = [[1, 1], [1, 1]]) ∧
    ∃ res, sbat_multi_calcu_V
        ({ solver := fun _ => ⟨[1], [[1]]⟩, inverse := fun V => [[1 / matAt V 0 0]],
           sqrt := Real.sqrt, pchisq := fun _ _ => 0,
           make_XMat_subset := fun _ => [[1, 1]] } : Library ℝ)
        2 [0, 1] [1, 1] [1, 1] ["rs1", "rs2"] = some res ∧ res.snp_count = 1 := by
  have hC : corr_matrix Real.sqrt ([[1, 1]] : List (List ℝ)) 2 = [[1, 1], [1, 1]] := by
    simp [corr_matrix, matBuild, corr_entry, sumsq_x, matAt, List.range_succ]
  exact ⟨⟨by norm_num, by norm_num, exactOnUnit_const, hC⟩,
    (sbat_multi_calcu_V_near_duplicate
      ({ solver := fun _ => ⟨[1], [[1]]⟩, inverse := fun V => [[1 / matAt V 0 0]],
         sqrt := Real.sqrt, pchisq := fun _ _ => 0,
         make_XMat_subset := fun _ => [[1, 1]] } : Library ℝ)
      2 1 [0, 1] [1, 1] [1, 1] ["rs1", "rs2"] (le_refl 2) (by norm_num) (by norm_num)
      exactOnUnit_const).2.2.2.2 hC⟩

/-- C6 (amended): on a matrix that the solver decomposes exactly with every
eigenvalue at least `1e-5`, if every squared off-diagonal entry is at most 0.9
and, in addition, every diagonal entry of `R_i` (the inverse of `R`, whose
diagonal is the multiple-correlation VIF of each variant) is at most 10, then
`sbat_VIF_iter_rm_colin` returns `-1`. -/
theorem sbat_VIF_iter_rm_colin_no_removal
    (solver : List (List K) → SelfAdjointEigenSolver K) (R : List (List K))
    (hE : IsEigendecomposition R (solver R))
    (hev : ∀ k < R.length, 1 / 100000 ≤ vecAt (solver R).eigenvalues k)
    (hpair : ∀ i < R.length, ∀ j < R.length, i ≠ j → matAt R i j * matAt R i j ≤ 9 / 10)
    (hRi : ∀ j < R.length, R_i (solver R) R.length j j ≤ 10) :
    sbat_VIF_iter_rm_colin solver R = -1 :=
  vif_none_of_exact solver R hE hev hpair hRi

/-- Witness for C6: four variants with pairwise correlation `-1/4`. -/
theorem sbat_VIF_iter_rm_colin_no_removal_witness :
    IsEigendecomposition (equicorrelated4 (-1 / 4 : ℚ)) (equicorrelated4_pca (-1 / 4)) ∧
    (∀ k < (equicorrelated4 (-1 / 4 : ℚ)).length,
      1 / 100000 ≤ vecAt (equicorrelated4_pca (-1 / 4 : ℚ)).eigenvalues k) ∧
    (∀ i < (equicorrelated4 (-1 / 4 : ℚ)).length, ∀ j < (equicorrelated4 (-1 / 4 : ℚ)).length,
      i ≠ j → matAt (equicorrelated4 (-1 / 4 : ℚ)) i j * matAt (equicorrelated4 (-1 / 4 : ℚ)) i j
        ≤ 9 / 10) ∧
    (∀ j < (equicorrelated4 (-1 / 4 : ℚ)).length,
      R_i (equicorrelated4_pca (-1 / 4 : ℚ)) (equicorrelated4 (-1 / 4 : ℚ)).length j j ≤ 10) ∧
    sbat_VIF_iter_rm_colin (fun _ => equicorrelated4_pca (-1 / 4 : ℚ))
      (equicorrelated4 (-1 / 4)) = -1 := by
  have hev := equicorrelated4_eigenvalues (-1 / 4 : ℚ) (by norm_num) (by norm_num)
  have hpair := equicorrelated4_pair (-1 / 4 : ℚ) (by norm_num)
  have hRi : ∀ j < (equicorrelated4 (-1 / 4 : ℚ)).length,
      R_i (equicorrelated4_pca (-1 / 4 : ℚ)) (equicorrelated4 (-1 / 4 : ℚ)).length j j ≤ 10 := by
    intro j hj
    rw [equicorrelated4_length] at hj ⊢
    rw [equicorrelated4_R_i_value (-1 / 4 : ℚ) (by norm_num) (by norm_num) j hj]
    norm_num
  exact ⟨equicorrelated4_exact _, hev, hpair, hRi,
    sbat_VIF_iter_rm_colin_no_removal (fun _ => equicorrelated4_pca (-1 / 4 : ℚ))
      (equicorrelated4 (-1 / 4)) (equicorrelated4_exact _) hev hpair hRi⟩

/-- Counterexample to C6: four variants with pairwise correlation `-13/40`
(`r^2 = 0.105625`), decomposed exactly (eigenvalues `1/40, 53/40, 53/40, 53/40`);
every VIF is `560/53 > 10` and index 0 is returned. -/
theorem sbat_VIF_iter_rm_colin_equicorrelated :
    IsEigendecomposition (equicorrelated4 (-13 / 40 : ℚ)) (equicorrelated4_pca (-13 / 40)) ∧
    (∀ i < 4, ∀ j < 4, matAt (equicorrelated4 (-13 / 40 : ℚ)) i j =
      matAt (equicorrelated4 (-13 / 40 : ℚ)) j i) ∧
    (∀ i < 4, matAt (equicorrelated4 (-13 / 40 : ℚ)) i i = 1) ∧
    (∀ i < 4, ∀ j < 4, i ≠ j →
      matAt (equicorrelated4 (-13 / 40 : ℚ)) i j * matAt (equicorrelated4 (-13 / 40 : ℚ)) i j
        ≤ 9 / 10) ∧
    sbat_VIF_iter_rm_colin (fun _ => equicorrelated4_pca (-13 / 40 : ℚ))
      (equicorrelated4 (-13 / 40)) = 0 := by
  have hE := equicorrelated4_exact (-13 / 40 : ℚ)
  have hev := equicorrelated4_eigenvalues (-13 / 40 : ℚ) (by norm_num) (by norm_num)
  have hpair := equicorrelated4_pair (-13 / 40 : ℚ) (by norm_num)
  refine ⟨hE, ?_, ?_, hpair, ?_⟩
  · intro i hi j hj
    interval_cases i <;> interval_cases j <;> rfl
  · intro i hi
    interval_cases i <;> rfl
  · apply sbat_VIF_iter_rm_colin_first _ _ (560 / 53) (by norm_num) (by decide)
    intro j hj
    have hj4 : j < 4 := hj
    have hval := equicorrelated4_R_i_value (-13 / 40 : ℚ) (by norm_num) (by norm_num) j hj4
    have hval' : R_i (equicorrelated4_pca (-13 / 40 : ℚ)) (equicorrelated4 (-13 / 40 : ℚ)).length
        j j = 560 / 53 := by
      rw [equicorrelated4_length, hval]; norm_num
    rw [vif_eq_R_i (equicorrelated4_pca (-13 / 40 : ℚ)) (equicorrelated4 (-13 / 40)) j
      (by rw [Q_diag_exact _ _ hE hev j hj]; norm_num)
      (by rw [hval']; norm_num) (by rw [hval']; norm_num)
      (by
        rw [hval']
        have := max_rsq_buf_le (equicorrelated4 (-13 / 40 : ℚ)) j (by decide)
          (fun i hi hij => hpair i hi j hj hij)
        linarith [show (9 : ℚ) / 10 ≤ 1 - 1 / (560 / 53) by norm_num])]
    exact hval'

/-- C7: one execution of the loop body, whatever `pos` it computes, takes a
symmetric `C` to a symmetric `D`, leaves `snp_beta`, `snp_btse` and `snp_keep`
with the dimension of `D` as their length, `D` square, and `C` equal to `D`. -/
theorem loop_body_invariant (solver : List (List K) → SelfAdjointEigenSolver K)
    (s : Reduction K)
    (hsym : ∀ i < s.C.length, ∀ j < s.C.length, matAt s.C i j = matAt s.C j i) :
    (∀ i < (loop_body solver s).D.length, ∀ j < (loop_body solver s).D.length,
      matAt (loop_body solver s).D i j = matAt (loop_body solver s).D j i) ∧
    (loop_body solver s).snp_beta.length = (loop_body solver s).D.length ∧
    (loop_body solver s).snp_btse.length = (loop_body solver s).D.length ∧
    (loop_body solver s).snp_keep.length = (loop_body solver s).D.length ∧
    (∀ row ∈ (loop_body solver s).D, row.length = (loop_body solver s).D.length) ∧
    (loop_body solver s).C = (loop_body solver s).D := by
  refine ⟨?_, ?_, ?_, ?_, ?_, rfl⟩
  · intro i hi j hj
    rw [loop_body_D_length] at hi hj
    rw [loop_body_D_at solver s i j hi hj, loop_body_D_at solver s j i hj hi]
    rw [loop_body_new_C_indx] at hi hj ⊢
    exact hsym _ (build_new_index_lt s.C _ i hi) _ (build_new_index_lt s.C _ j hj)
  · simp [loop_body, vecBuild, matBuild]
  · simp [loop_body, vecBuild, matBuild]
  · simp [loop_body, vecBuild, matBuild]
  · intro row hrow
    rw [loop_body_D_length]
    exact matBuild_row_length _ _ _ row hrow

/-- Witness for C7: the four equicorrelated variants with correlation `-1/4`. -/
theorem loop_body_invariant_witness :
    (∀ i < (equicorrelated4 (-1 / 4 : ℚ)).length, ∀ j < (equicorrelated4 (-1 / 4 : ℚ)).length,
      matAt (equicorrelated4 (-1 / 4 : ℚ)) i j = matAt (equicorrelated4 (-1 / 4 : ℚ)) j i) ∧
    (loop_body (fun _ => equicorrelated4_pca (-1 / 4 : ℚ))
      (reduction_init (equicorrelated4 (-1 / 4)) [1, 2, 3, 4] [1, 1, 1, 1]
        ["rs1", "rs2", "rs3", "rs4"])).snp_beta.length =
    (loop_body (fun _ => equicorrelated4_pca (-1 / 4 : ℚ))
      (reduction_init (equicorrelated4 (-1 / 4)) [1, 2, 3, 4] [1, 1, 1, 1]
        ["rs1", "rs2", "rs3", "rs4"])).D.length := by
  have hsym : ∀ i < (equicorrelated4 (-1 / 4 : ℚ)).length,
      ∀ j < (equicorrelated4 (-1 / 4 : ℚ)).length,
        matAt (equicorrelated4 (-1 / 4 : ℚ)) i j = matAt (equicorrelated4 (-1 / 4 : ℚ)) j i := by
    intro i hi j hj
    rw [equicorrelated4_length] at hi hj
    interval_cases i <;> interval_cases j <;> rfl
  exact ⟨hsym, (loop_body_invariant (fun _ => equicorrelated4_pca (-1 / 4 : ℚ))
    (reduction_init (equicorrelated4 (-1 / 4)) [1, 2, 3, 4] [1, 1, 1, 1]
      ["rs1", "rs2", "rs3", "rs4"]) hsym).2.1⟩

/-- C8: with an exact square root, the matrix `C` built from the genotype matrix
`X` of `m` variants is symmetric and every entry lies in `[-1, 1]`. -/
theorem corr_matrix_symmetric_bounded (sqrt : K → K) (X : List (List K)) (m : Nat)
    (hsqrt : ∀ x : K, 0 ≤ x → 0 ≤ sqrt x ∧ sqrt x * sqrt x = x) :
    ∀ i < m, ∀ j < m,
      matAt (corr_matrix sqrt X m) i j = matAt (corr_matrix sqrt X m) j i ∧
      -1 ≤ matAt (corr_matrix sqrt X m) i j ∧ matAt (corr_matrix sqrt X m) i j ≤ 1 := by
  intro i hi j hj
  unfold corr_matrix
  rw [matAt_matBuild _ _ _ _ _ hi hj, matAt_matBuild _ _ _ _ _ hj hi]
  have h := abs_le.mp (corr_entry_abs_le sqrt X i j hsqrt)
  exact ⟨corr_entry_symm sqrt X i j, h.1, h.2⟩

/-- Witness for C8: the real square root and a 2-by-2 genotype matrix. -/
theorem corr_matrix_symmetric_bounded_witness :
    (∀ x : ℝ, 0 ≤ x → 0 ≤ Real.sqrt x ∧ Real.sqrt x * Real.sqrt x = x) ∧
    ∀ i < 2, ∀ j < 2,
      matAt (corr_matrix Real.sqrt [[1, 2], [3, 4]] 2) i j =
        matAt (corr_matrix Real.sqrt [[1, 2], [3, 4]] 2) j i ∧
      -1 ≤ matAt (corr_matrix Real.sqrt [[1, 2], [3, 4]] 2) i j ∧
      matAt (corr_matrix Real.sqrt [[1, 2], [3, 4]] 2) i j ≤ 1 :=
  ⟨fun x hx => ⟨Real.sqrt_nonneg x, Real.mul_self_sqrt hx⟩,
    corr_matrix_symmetric_bounded Real.sqrt [[1, 2], [3, 4]] 2
      (fun x hx => ⟨Real.sqrt_nonneg x, Real.mul_self_sqrt hx⟩)⟩

/-- C9 (evaluation at the failing input): a set of one variant with `se = 0`
reaches `sbat_multi_calcu_V` (any `fuel ≥ 1`); `V` is the singular matrix `(0)`, which has no
inverse, and the p-value recorded for the set is whatever `pchisq` answers on
the quadratic form with `inverse` of `(0)`, with one variant tested; the row is
written unless `pchisq` itself answers more than 1.5. -/
theorem sbat_multi_set_singular (lib : Library K) (fuel : Nat) (hfuel : 1 ≤ fuel)
    (hsqrt : lib.sqrt 1 = 1)
    (hX : lib.make_XMat_subset [0] = [[1]]) (hS : ExactOnUnit lib.solver) :
    V_matrix ([0] : List K) [[1]] = [[0]] ∧
    (∀ Vinv : List (List K), ¬ IsInverse [[0]] Vinv) ∧
    sbat_multi_set lib fuel ["rs1"] [1] [0] ["rs1"] =
      some { set_pval := lib.pchisq (matAt (lib.inverse [[0]]) 0 0) 1
             snp_num_in_set := 1
             num_snp_tested := 1
             chisq_o := matAt (lib.inverse [[0]]) 0 0
             calcu_V_called := true } ∧
    row_written ({ set_pval := lib.pchisq (matAt (lib.inverse [[0]]) 0 0) 1
                   snp_num_in_set := 1
                   num_snp_tested := 1
                   chisq_o := matAt (lib.inverse [[0]]) 0 0
                   calcu_V_called := true } : SetResult K) =
      !decide (lib.pchisq (matAt (lib.inverse [[0]]) 0 0) 1 > 3 / 2) := by
  have hV : V_matrix ([0] : List K) [[1]] = [[0]] := by
    simp [V_matrix, matBuild, vecAt, List.range_succ]
  have hC : corr_matrix lib.sqrt [[1]] 1 = [[1]] := by
    simp [corr_matrix, matBuild, corr_entry, sumsq_x, matAt, List.range_succ, hsqrt]
  have hpos := sbat_VIF_iter_rm_colin_unit lib.solver hS
  have hloop : reduction_loop lib.solver fuel (reduction_init [[1]] [1] [0] ["rs1"]) =
      some { C := [[1]], D := [[1]], snp_beta := [1], snp_btse := [0], snp_keep := ["rs1"]
             new_C_indx := [0], pos := -1, count := 1 } := by
    apply reduction_loop_le lib.solver 1 fuel hfuel
    simp [reduction_loop, loop_body, reduction_init, hpos, build_new_index, matBuild,
      vecBuild, matAt, vecAt, List.range_succ]
  refine ⟨hV, ?_, ?_, rfl⟩
  · intro Vinv h
    have := h.1 0 (by simp) 0 (by simp)
    simp [matAt] at this
  · have hidx : resolve_snp_indx ["rs1"] ["rs1"] = [0] := by decide
    have hb : vecBuild 1 (fun ii => vecAt ([1] : List K) (([0] : List Nat).getD ii 0)) = [1] := by
      simp [vecBuild, vecAt, List.range_succ]
    have hs : vecBuild 1 (fun ii => vecAt ([0] : List K) (([0] : List Nat).getD ii 0)) = [0] := by
      simp [vecBuild, vecAt, List.range_succ]
    simp only [sbat_multi_set, hidx, List.length_cons, List.length_nil, hb, hs,
      sbat_multi_calcu_V, hX, hC, hloop, hV]
    simp [quadratic_form, vecAt]

/-- Witness for C9: the real square root, the genotype column `(1)`, a solver
that answers eigenvalue 1 and eigenvector `(1)`, and stand-ins for `inverse` and
`pchisq`. -/
theorem sbat_multi_set_singular_witness :
    (Real.sqrt 1 = 1 ∧ ExactOnUnit (fun _ : List (List ℝ) => ⟨[1], [[1]]⟩)) ∧
    sbat_multi_set
      ({ solver := fun _ => ⟨[1], [[1]]⟩, inverse := fun V => [[1 / matAt V 0 0]]
         sqrt := Real.sqrt, pchisq := fun _ _ => 0
         make_XMat_subset := fun _ => [[1]] } : Library ℝ)
      1 ["rs1"] [1] [0] ["rs1"] =
      some { set_pval := 0, snp_num_in_set := 1, num_snp_tested := 1
             chisq_o := matAt ([[1 / matAt ([[0]] : List (List ℝ)) 0 0]] : List (List ℝ)) 0 0
             calcu_V_called := true } :=
  ⟨⟨Real.sqrt_one, exactOnUnit_const⟩,
    (sbat_multi_set_singular
      ({ solver := fun _ => ⟨[1], [[1]]⟩, inverse := fun V => [[1 / matAt V 0 0]]
         sqrt := Real.sqrt, pchisq := fun _ _ => 0
         make_XMat_subset := fun _ => [[1]] } : Library ℝ)
      1 (le_refl 1) Real.sqrt_one rfl exactOnUnit_const).2.2.1⟩

/-- C10 (evaluation at the failing input): an empty set is skipped with the
sentinel 2, but a set whose only name is absent from the association results is
not: `sbat_multi_calcu_V` is called on an empty index list and the p-value
recorded is what `pchisq` answers on `(0, 0)`. -/
theorem sbat_multi_set_unresolved (lib : Library K) (fuel : Nat) (snp_name : List String)
    (snp_beta snp_btse : List K) :
    sbat_multi_set lib fuel snp_name snp_beta snp_btse [] =
      some { set_pval := 2, snp_num_in_set := 0, num_snp_tested := 0, chisq_o := 0
             calcu_V_called := false } ∧
    resolve_snp_indx ["rs1"] ["rs2"] = [] ∧
    sbat_multi_set lib (fuel + 1) ["rs1"] snp_beta snp_btse ["rs2"] =
      some { set_pval := lib.pchisq 0 0, snp_num_in_set := 0, num_snp_tested := 0, chisq_o := 0
             calcu_V_called := true } ∧
    row_written ({ set_pval := lib.pchisq 0 0, snp_num_in_set := 0, num_snp_tested := 0
                   chisq_o := 0, calcu_V_called := true } : SetResult K) =
      !decide (lib.pchisq 0 0 > 3 / 2) := by
  have hidx : resolve_snp_indx ["rs1"] ["rs2"] = [] := by decide
  refine ⟨?_, hidx, ?_, rfl⟩
  · simp [sbat_multi_set]
  · have hloop : ∀ (b s : List K) (k : List String),
        reduction_loop lib.solver (fuel + 1) (reduction_init [] b s k) =
        some { C := [], D := [], snp_beta := [], snp_btse := [], snp_keep := []
               new_C_indx := [], pos := -1, count := 1 } := by
      intro b s k
      simp [reduction_loop, loop_body, reduction_init, sbat_VIF_iter_rm_colin_empty,
        build_new_index, matBuild, vecBuild]
    simp only [sbat_multi_set, hidx, sbat_multi_calcu_V, corr_matrix, matBuild, List.length_nil,
      List.range_zero, List.map_nil, hloop]
    simp [quadratic_form, V_matrix, matBuild, vecBuild]

/-- C11 (evaluation at the failing input): a gene whose start and end boundary
variant are the same variant `rs1` is skipped, with the sentinel 2, no variant
tested, no call of `sbat_multi_calcu_V` and no output row; and whatever the
gene, an iteration that does not skip it calls `sbat_multi_calcu_V`, so the
single-variant branch of lines 627-630 is never taken. -/
theorem sbat_multi_gene_step_single (lib : Library K) (fuel : Nat)
    (snp_pval snp_beta snp_btse : List K) :
    sbat_multi_gene_step lib fuel ["rs1"] snp_pval snp_beta snp_btse "rs1" "rs1" =
      some { gene_pval := 2, snp_num_in_gene := 0, num_snp_tested := 0, chisq_o := 0
             calcu_V_called := false } ∧
    gene_row_written ({ gene_pval := 2, snp_num_in_gene := 0, num_snp_tested := 0, chisq_o := 0
                        calcu_V_called := false } : GeneResult K) = false ∧
    ∀ (snp_name : List String) (g1 g2 : String) (r : GeneResult K),
      sbat_multi_gene_step lib fuel snp_name snp_pval snp_beta snp_btse g1 g2 = some r →
        r = gene_skipped ∨ r.calcu_V_called = true := by
  refine ⟨?_, ?_, ?_⟩
  · exact sbat_multi_gene_step_same lib fuel ["rs1"] snp_pval snp_beta snp_btse "rs1" "rs1" 0
      (by decide) (by decide)
  · simp [gene_row_written]; norm_num
  · intro snp_name g1 g2 r h
    exact sbat_multi_gene_step_called lib fuel snp_name snp_pval snp_beta snp_btse g1 g2 r h

/-- C12: a set of `sbat_multi` with more than 20000 resolved variants, and a
gene of `sbat_multi_gene` whose window holds more than 10000 variants, is
skipped: sentinel p-value 2, variant count 0, no call of `sbat_multi_calcu_V`,
no output row. With exactly 20000 resolved variants, or exactly 10000 variants
in the window, the unit is not skipped: `sbat_multi_calcu_V` is called on all
of them. -/
theorem size_cap_skip (lib : Library K) (fuel : Nat) (snp_name : List String)
    (snp_pval snp_beta snp_btse : List K) (snpset_i : List String) (g1 g2 : String)
    (a b : Nat) :
    ((resolve_snp_indx snp_name snpset_i).length > 20000 →
      sbat_multi_set lib fuel snp_name snp_beta snp_btse snpset_i =
        some { set_pval := 2, snp_num_in_set := 0, num_snp_tested := 0, chisq_o := 0
               calcu_V_called := false } ∧
      row_written ({ set_pval := 2, snp_num_in_set := 0, num_snp_tested := 0, chisq_o := 0
                     calcu_V_called := false } : SetResult K) = false) ∧
    ((resolve_snp_indx snp_name snpset_i).length = 20000 → 20001 ≤ fuel →
      ∃ r, sbat_multi_set lib fuel snp_name snp_beta snp_btse snpset_i = some r ∧
        r.calcu_V_called = true ∧ r.snp_num_in_set = 20000) ∧
    (snp_name_map_find snp_name g1 = some a → snp_name_map_find snp_name g2 = some b →
      (b : Int) - (a : Int) + 1 > 10000 →
      sbat_multi_gene_step lib fuel snp_name snp_pval snp_beta snp_btse g1 g2 =
        some { gene_pval := 2, snp_num_in_gene := 0, num_snp_tested := 0, chisq_o := 0
               calcu_V_called := false } ∧
      gene_row_written ({ gene_pval := 2, snp_num_in_gene := 0, num_snp_tested := 0
                          chisq_o := 0, calcu_V_called := false } : GeneResult K) = false) ∧
    (snp_name_map_find snp_name g1 = some a → snp_name_map_find snp_name g2 = some b →
      (b : Int) - (a : Int) + 1 = 10000 → 10001 ≤ fuel →
      ∃ r, sbat_multi_gene_step lib fuel snp_name snp_pval snp_beta snp_btse g1 g2 = some r ∧
        r.calcu_V_called = true ∧ r.snp_num_in_gene = 10000) := by
  refine ⟨?_, ?_, ?_, ?_⟩
  · intro h
    refine ⟨sbat_multi_set_over_cap lib fuel snp_name snp_beta snp_btse snpset_i h, ?_⟩
    simp [row_written]; norm_num
  · intro h hfuel
    have hle : (resolve_snp_indx snp_name snpset_i).length ≤ snpset_i.length :=
      List.length_filterMap_le _ _
    obtain ⟨r, hr, hc, hn⟩ := sbat_multi_set_within_cap lib fuel snp_name snp_beta snp_btse
      snpset_i (by omega) (by omega) (by omega)
    exact ⟨r, hr, hc, by rw [hn, h]⟩
  · intro h1 h2 h
    refine ⟨sbat_multi_gene_step_over_cap lib fuel snp_name snp_pval snp_beta snp_btse g1 g2
      a b h1 h2 h, ?_⟩
    simp [gene_row_written]; norm_num
  · intro h1 h2 h hfuel
    obtain ⟨r, hr, hc, hn⟩ := sbat_multi_gene_step_within_cap lib fuel snp_name snp_pval
      snp_beta snp_btse g1 g2 a b h1 h2 (by omega) (by omega) (by omega)
    exact ⟨r, hr, hc, by rw [hn, h]⟩

/-- Witness for C12: the association results name `rs0` 10001 times and then
`rs1`; the set repeats `rs0` 20001 times and the gene window runs from `rs0`
(index 0) to `rs1` (index 10001), 10002 variants. The library is a stand-in: a
skipped unit does not call it. -/
theorem size_cap_skip_witness :
    ((resolve_snp_indx (List.replicate 10001 "rs0" ++ ["rs1"])
        (List.replicate 20001 "rs0")).length > 20000 ∧
      snp_name_map_find (List.replicate 10001 "rs0" ++ ["rs1"]) "rs0" = some 0 ∧
      snp_name_map_find (List.replicate 10001 "rs0" ++ ["rs1"]) "rs1" = some 10001 ∧
      ((10001 : Nat) : Int) - ((0 : Nat) : Int) + 1 > 10000) ∧
    sbat_multi_set
      ({ solver := diagonal_solver, inverse := fun V => V, sqrt := Real.sqrt
         pchisq := fun _ _ => 0, make_XMat_subset := fun _ => [] } : Library ℝ)
      0 (List.replicate 10001 "rs0" ++ ["rs1"]) [] [] (List.replicate 20001 "rs0") =
      some { set_pval := 2, snp_num_in_set := 0, num_snp_tested := 0, chisq_o := 0
             calcu_V_called := false } ∧
    sbat_multi_gene_step
      ({ solver := diagonal_solver, inverse := fun V => V, sqrt := Real.sqrt
         pchisq := fun _ _ => 0, make_XMat_subset := fun _ => [] } : Library ℝ)
      0 (List.replicate 10001 "rs0" ++ ["rs1"]) [] [] [] "rs0" "rs1" =
      some { gene_pval := 2, snp_num_in_gene := 0, num_snp_tested := 0, chisq_o := 0
             calcu_V_called := false } := by
  have hf0 := snp_name_map_find_first 10001 "rs0" "rs1" (by norm_num)
  have hf1 := snp_name_map_find_last 10001 "rs0" "rs1" (by decide)
  have hlen : (resolve_snp_indx (List.replicate 10001 "rs0" ++ ["rs1"])
      (List.replicate 20001 "rs0")).length > 20000 := by
    rw [resolve_snp_indx_replicate _ "rs0" 0 20001 hf0]; norm_num
  have hcount : ((10001 : Nat) : Int) - ((0 : Nat) : Int) + 1 > 10000 := by norm_num
  have h := size_cap_skip
    ({ solver := diagonal_solver, inverse := fun V => V, sqrt := Real.sqrt
       pchisq := fun _ _ => 0, make_XMat_subset := fun _ => [] } : Library ℝ)
    0 (List.replicate 10001 "rs0" ++ ["rs1"]) [] [] [] (List.replicate 20001 "rs0")
    "rs0" "rs1" 0 10001
  exact ⟨⟨hlen, hf0, hf1, hcount⟩, (h.1 hlen).1, (h.2.2.1 hf0 hf1 hcount).1⟩

/-- C13: on a square matrix `C` with `snp_beta` and `snp_btse` of the dimension of
`C`, one execution of the loop body that computes a removal index `pos` with
`0 ≤ pos < n` leaves `D` equal to `C` with row `pos` and column `pos` deleted,
of dimension `n - 1`, and `snp_beta`, `snp_btse` with entry `pos` deleted, the
other entries in their order; when it computes `pos = -1` the matrix and the
vectors are unchanged. -/
theorem loop_body_deletes (solver : List (List K) → SelfAdjointEigenSolver K)
    (s : Reduction K) (hsq : ∀ row ∈ s.C, row.length = s.C.length)
    (hb : s.snp_beta.length = s.C.length) (hs : s.snp_btse.length = s.C.length) :
    (∀ p : Nat, (loop_body solver s).pos = (p : Int) → p < s.C.length →
      (loop_body solver s).D = (s.C.eraseIdx p).map (fun row => row.eraseIdx p) ∧
      (loop_body solver s).D.length = s.C.length - 1 ∧
      (∀ row ∈ (loop_body solver s).D, row.length = s.C.length - 1) ∧
      (loop_body solver s).snp_beta = s.snp_beta.eraseIdx p ∧
      (loop_body solver s).snp_btse = s.snp_btse.eraseIdx p) ∧
    ((loop_body solver s).pos = -1 →
      (loop_body solver s).D = s.C ∧
      (loop_body solver s).snp_beta = s.snp_beta ∧
      (loop_body solver s).snp_btse = s.snp_btse) := by
  refine ⟨?_, loop_body_no_removal solver s hsq hb hs⟩
  intro p hpos hp
  obtain ⟨hD, hbeta, hse⟩ := loop_body_removal solver s p hsq hb hs hpos hp
  have hlen : (loop_body solver s).D.length = s.C.length - 1 := by
    rw [loop_body_D_length, loop_body_new_C_indx, hpos, build_new_index_pos_length s.C p hp]
  refine ⟨hD, hlen, ?_, hbeta, hse⟩
  intro row hrow
  rw [← hlen, loop_body_D_length]
  exact matBuild_row_length _ _ _ row hrow

/-- Witness for C13: a non-constant and a constant variant with the diagonal
solver; the reducer returns index 1, and `D = (1)`, `snp_beta = (2)`,
`snp_btse = (3)` are left. -/
theorem loop_body_deletes_witness :
    ((∀ row ∈ ([[1, 0], [0, 0]] : List (List ℚ)), row.length = 2) ∧
      (loop_body diagonal_solver
        (reduction_init ([[1, 0], [0, 0]] : List (List ℚ)) [2, 5] [3, 7] ["rs1", "rs2"])).pos
        = ((1 : Nat) : Int)) ∧
    (loop_body diagonal_solver
      (reduction_init ([[1, 0], [0, 0]] : List (List ℚ)) [2, 5] [3, 7] ["rs1", "rs2"])).D
      = [[1]] ∧
    (loop_body diagonal_solver
      (reduction_init ([[1, 0], [0, 0]] : List (List ℚ)) [2, 5] [3, 7] ["rs1", "rs2"])).snp_beta
      = [2] ∧
    (loop_body diagonal_solver
      (reduction_init ([[1, 0], [0, 0]] : List (List ℚ)) [2, 5] [3, 7] ["rs1", "rs2"])).snp_btse
      = [3] := by
  have hsq : ∀ row ∈ ([[1, 0], [0, 0]] : List (List ℚ)), row.length = 2 := by
    intro row hrow
    simp only [List.mem_cons, List.mem_singleton, List.not_mem_nil, or_false] at hrow
    rcases hrow with rfl | rfl <;> rfl
  have hpos : (loop_body diagonal_solver
      (reduction_init ([[1, 0], [0, 0]] : List (List ℚ)) [2, 5] [3, 7] ["rs1", "rs2"])).pos
      = ((1 : Nat) : Int) := by
    rw [loop_body_pos]
    exact sbat_VIF_iter_rm_colin_constant_second
  obtain ⟨hD, _, _, hbeta, hse⟩ := (loop_body_deletes diagonal_solver
    (reduction_init ([[1, 0], [0, 0]] : List (List ℚ)) [2, 5] [3, 7] ["rs1", "rs2"])
    hsq rfl rfl).1 1 hpos (by decide)
  exact ⟨⟨hsq, hpos⟩, hD, hbeta, hse⟩

/-- C14: on a matrix with entries in `[-1, 1]`, an off-diagonal entry whose
square exceeds 0.9 makes `sbat_VIF_iter_rm_colin` return an index `≥ 0`,
whatever the eigen-solver answers; and the reduction loop started on such a
matrix stops (within `n + 1` executions of its body) on a matrix whose squared
off-diagonal entries are all at most 0.9. -/
theorem pairwise_override (solver : List (List K) → SelfAdjointEigenSolver K)
    (R : List (List K))
    (hbound : ∀ i < R.length, ∀ j < R.length, -1 ≤ matAt R i j ∧ matAt R i j ≤ 1) :
    (∀ i < R.length, ∀ j < R.length, i ≠ j → 9 / 10 < matAt R i j * matAt R i j →
      ∃ p : Nat, p < R.length ∧ sbat_VIF_iter_rm_colin solver R = (p : Int)) ∧
    (∀ (set_beta set_se : List K) (snp_kept : List String),
      ∃ s, reduction_loop solver (R.length + 1) (reduction_init R set_beta set_se snp_kept)
          = some s ∧
        ∀ i < s.D.length, ∀ j < s.D.length, i ≠ j →
          matAt s.D i j * matAt s.D i j ≤ 9 / 10) := by
  refine ⟨fun i hi j hj hij h =>
    sbat_VIF_iter_rm_colin_pairwise solver R hbound i j hi hj hij h, ?_⟩
  intro set_beta set_se snp_kept
  obtain ⟨s, hs, _⟩ := reduction_loop_fuel solver R.length
    (reduction_init R set_beta set_se snp_kept) rfl rfl
  exact ⟨s, hs, reduction_loop_stops_pairwise solver _ _ s rfl hbound hs⟩

/-- Witness for C14: two variants with correlation 1 and a solver that answers
eigenvalue 1 and eigenvector `(1)`; a removal is asked for. -/
theorem pairwise_override_witness :
    (∀ i < ([[1, 1], [1, 1]] : List (List ℚ)).length,
      ∀ j < ([[1, 1], [1, 1]] : List (List ℚ)).length,
        -1 ≤ matAt ([[1, 1], [1, 1]] : List (List ℚ)) i j ∧
          matAt ([[1, 1], [1, 1]] : List (List ℚ)) i j ≤ 1) ∧
    ∃ p : Nat, p < ([[1, 1], [1, 1]] : List (List ℚ)).length ∧
      sbat_VIF_iter_rm_colin (fun _ => ⟨[1], [[1]]⟩) ([[1, 1], [1, 1]] : List (List ℚ))
        = (p : Int) := by
  have hbound : ∀ i < ([[1, 1], [1, 1]] : List (List ℚ)).length,
      ∀ j < ([[1, 1], [1, 1]] : List (List ℚ)).length,
        -1 ≤ matAt ([[1, 1], [1, 1]] : List (List ℚ)) i j ∧
          matAt ([[1, 1], [1, 1]] : List (List ℚ)) i j ≤ 1 := by
    intro i hi j hj
    simp only [List.length_cons, List.length_nil] at hi hj
    interval_cases i <;> interval_cases j <;> simp [matAt]
  exact ⟨hbound,
    (pairwise_override (fun _ => ⟨[1], [[1]]⟩) [[1, 1], [1, 1]] hbound).1 0 (by decide) 1
      (by decide) (by decide) (by simp [matAt]; norm_num)⟩

end Gcta
